import Mathlib

/-!
Verification of the package-resolution subsystem (`state_descriptor.cpp`):
the `DependencyTracker` classifier, the `StateDescriptor` merge-target
mutation API (`AddField`, `AddSwarmValue`), metadata normalization
(`ValidateMetadata`) and the `ResolvePackages` orchestration are embedded
as executable Lean definitions, and the documented behaviors are proved
or refuted about that embedding.
-/

set_option autoImplicit false

namespace Parthenon

/-- Dependency kind of a variable's metadata: the four concrete kinds plus
the unset default `None` that normalization rewrites to `Provides`. -/
inductive Dependency where
  | None
  | Private
  | Provides
  | Requires
  | Overridable
deriving DecidableEq, Repr

/-- Modelled from the spec: `Metadata` lives in `metadata.hpp`, which is not
part of this slice; the spec treats it as an opaque capability record with a
dependency kind, a sparse bit, a sparse-variant id, structural shape/flags,
and an association back-reference, queried and mutated through the interface
below. -/
structure Metadata where
  dependency : Dependency
  sparse : Bool
  sparseId : Int
  shape : List Nat
  flags : List String
  associated : String
deriving DecidableEq, Repr

/-- Accessor `Metadata::Dependency()`. -/
def Metadata.Dep (m : Metadata) : Dependency := m.dependency

/-- Query `Metadata::IsSet(Metadata::Sparse)`. -/
def Metadata.IsSparse (m : Metadata) : Bool := m.sparse

/-- Accessor `Metadata::GetSparseId()`. -/
def Metadata.GetSparseId (m : Metadata) : Int := m.sparseId

/-- Mutator `Metadata::Associate(name)`: overwrite the association. -/
def Metadata.Associate (m : Metadata) (s : String) : Metadata :=
  { m with associated := s }

/-- Accessor `Metadata::getAssociated()`. -/
def Metadata.getAssociated (m : Metadata) : String := m.associated

/-- Modelled from the spec: `Metadata::SparseEqual` is declared in
`metadata.hpp`, not in this slice; per the spec it is structural shape/flag
equality ignoring the sparse id, so it compares every component of the
record except `sparseId`. -/
def Metadata.SparseEqual (a b : Metadata) : Bool :=
  decide (a.dependency = b.dependency ∧ a.sparse = b.sparse ∧ a.shape = b.shape
    ∧ a.flags = b.flags ∧ a.associated = b.associated)

/-- Body of the `MetadataLoop` lambda in `StateDescriptor::ValidateMetadata`:
an unset dependency kind is rewritten to `Provides`. -/
def Metadata.validate (m : Metadata) : Metadata :=
  if m.dependency = Dependency.None then { m with dependency := Dependency.Provides } else m

/-- Lookup in an association list, modelling `unordered_map::find` /
`count`. Keys are kept unique by the insertion discipline of the operations
below. -/
def lookupA {α : Type} (k : String) : List (String × α) → Option α
  | [] => none
  | (k', v) :: rest => if k' = k then some v else lookupA k rest

/-- Replacement of the value stored under a key, modelling in-place mutation
through an `unordered_map` iterator or `operator[]` on a present key. -/
def updateA {α : Type} (k : String) (v : α) : List (String × α) → List (String × α)
  | [] => []
  | (k', v') :: rest => if k' = k then (k', v) :: rest else (k', v') :: updateA k v rest

@[simp] theorem lookupA_nil {α : Type} (k : String) : lookupA (α := α) k [] = none := rfl

@[simp] theorem lookupA_cons {α : Type} (k k' : String) (v : α) (rest : List (String × α)) :
    lookupA k ((k', v) :: rest) = if k' = k then some v else lookupA k rest := rfl

@[simp] theorem updateA_nil {α : Type} (k : String) (v : α) : updateA k v [] = [] := rfl

@[simp] theorem updateA_cons {α : Type} (k k' : String) (v v' : α) (rest : List (String × α)) :
    updateA k v ((k', v') :: rest)
      = if k' = k then (k', v) :: rest else (k', v') :: updateA k v rest := rfl

/-- Merge Target: the resolved namespace under construction
(`StateDescriptor`). Maps are embedded as association lists in insertion
order. -/
structure StateDescriptor where
  label : String
  metadataMap : List (String × Metadata)
  sparseMetadataMap : List (String × List Metadata)
  swarmMetadataMap : List (String × Metadata)
  swarmValueMetadataMap : List (String × List (String × Metadata))
deriving DecidableEq, Repr

/-- Freshly constructed `StateDescriptor` with the given label. -/
def StateDescriptor.mkEmpty (label : String) : StateDescriptor :=
  ⟨label, [], [], [], []⟩

/-- Embedding of `StateDescriptor::AddSwarmValue`: invalid-argument failure
when the swarm is absent or the value name is already registered, insertion
otherwise. `swarmValueMetadataMap_[swarm_name]` default-constructs an empty
map for a swarm with no values yet. -/
def StateDescriptor.AddSwarmValue (sd : StateDescriptor) (value_name swarm_name : String)
    (m : Metadata) : Except String (Bool × StateDescriptor) :=
  if (lookupA swarm_name sd.swarmMetadataMap).isNone then
    .error ("Swarm " ++ swarm_name ++ " does not exist!")
  else
    let svals := (lookupA swarm_name sd.swarmValueMetadataMap).getD []
    if (lookupA value_name svals).isSome then
      .error ("Swarm value " ++ value_name ++ " already exists!")
    else
      let svmap :=
        if (lookupA swarm_name sd.swarmValueMetadataMap).isSome then
          updateA swarm_name (svals ++ [(value_name, m)]) sd.swarmValueMetadataMap
        else
          sd.swarmValueMetadataMap ++ [(swarm_name, svals ++ [(value_name, m)])]
      .ok (true, { sd with swarmValueMetadataMap := svmap })

/-- Modelled from the spec: `StateDescriptor::AddSwarm` is declared in
`state_descriptor.hpp`, not in this slice. The spec only gives its signature
and the swarm map (name → Metadata), so a duplicate name reports "not added"
like `addField` and a new name is inserted. -/
def StateDescriptor.AddSwarm (sd : StateDescriptor) (swarm_name : String) (m : Metadata) :
    Except String (Bool × StateDescriptor) :=
  if (lookupA swarm_name sd.swarmMetadataMap).isSome then
    .ok (false, sd)
  else
    .ok (true, { sd with swarmMetadataMap := sd.swarmMetadataMap ++ [(swarm_name, m)] })

/-- Embedding of `StateDescriptor::AddField`. Sparse case: a new name gets a
one-element list; an existing name is validated by `SparseEqual` against the
first stored entry (fatal mismatch), then the incoming id is compared with
the first stored entry's id — equality reports "not added", anything else is
appended. Plain case: a missing association is first self-associated, then
the stored copy's association is cleared to empty; an existing name reports
"not added" without modification. -/
def StateDescriptor.AddField (sd : StateDescriptor) (field_name : String) (m_in : Metadata) :
    Except String (Bool × StateDescriptor) :=
  let m := m_in
  if m.sparse then
    match lookupA field_name sd.sparseMetadataMap with
    | some mvec =>
      match mvec with
      | [] => .error "internal: empty sparse metadata vector"
      | m0 :: _ =>
        if Metadata.SparseEqual m0 m then
          if m0.sparseId = m.sparseId then
            .ok (false, sd)
          else
            .ok (true, { sd with
              sparseMetadataMap := updateA field_name (mvec ++ [m]) sd.sparseMetadataMap })
        else
          .error ("All sparse variables with the same name must have the "
            ++ "same metadata flags and shape.")
    | none =>
      .ok (true, { sd with sparseMetadataMap := sd.sparseMetadataMap ++ [(field_name, [m])] })
  else
    let assoc := m.getAssociated
    let m := if assoc.length = 0 then m.Associate field_name else m
    match lookupA field_name sd.metadataMap with
    | some _ => .ok (false, sd)
    | none =>
      let m := m.Associate ""
      .ok (true, { sd with metadataMap := sd.metadataMap ++ [(field_name, m)] })

/-- Set-insertion into a list kept without duplicates, modelling
`unordered_set::insert`. -/
def insertSet (l : List String) (v : String) : List String :=
  if v ∈ l then l else l ++ [v]

/-- Membership in the per-name id set modelling
`sparse_added[var][sparse_id]` (a `bool` map whose entries are only ever
written `true`, so it is observationally a set of ids; `operator[]` reads of
absent keys yield `false`). -/
def sparseAddedGet (sa : List (String × List Int)) (var : String) (id : Int) : Bool :=
  decide (id ∈ (lookupA var sa).getD [])

/-- Write `sparse_added[var][sparse_id] = true`. -/
def sparseAddedSet (sa : List (String × List Int)) (var : String) (id : Int) :
    List (String × List Int) :=
  match lookupA var sa with
  | some ids => updateA var (if id ∈ ids then ids else ids ++ [id]) sa
  | none => sa ++ [(var, [id])]

/-- Increment `overridable_vars[var]`, with `operator[]` value-initializing
an absent count to 0. -/
def bumpCount (l : List (String × Nat)) (k : String) : List (String × Nat) :=
  match lookupA k l with
  | some n => updateA k (n + 1) l
  | none => l ++ [(k, 1)]

/-- Classifier state (`DependencyTracker`): provided names, required names,
per-name override counters, per-(name,id) sparse dedup flags, per-name
ordered first-seen overridable candidates. -/
structure DependencyTracker where
  provided_vars : List String
  depends_vars : List String
  overridable_vars : List (String × Nat)
  sparse_added : List (String × List Int)
  overridable_meta : List (String × List Metadata)
deriving DecidableEq, Repr

/-- Classifier with every accumulator empty. -/
def DependencyTracker.mkEmpty : DependencyTracker := ⟨[], [], [], [], []⟩

/-- Query `DependencyTracker::Provided`. -/
def DependencyTracker.Provided (tr : DependencyTracker) (var : String) : Bool :=
  decide (var ∈ tr.provided_vars)

/-- Embedding of `DependencyTracker::Sort` (named `SortVar` because `Sort`
is a Lean keyword). The installation callbacks `add_private` and
`add_provides` are template parameters in the source; here they are explicit
state transformers over an arbitrary state type `σ`, so the same definition
serves the field, sparse-field and swarm instantiations. -/
def DependencyTracker.SortVar {σ : Type}
    (add_private add_provides : String → String → Metadata → σ → Except String σ)
    (tr : DependencyTracker) (st : σ) (package var : String) (metadata : Metadata) :
    Except String (DependencyTracker × σ) :=
  let dependency := metadata.Dep
  let is_sparse := metadata.IsSparse
  let sparse_id := metadata.GetSparseId
  match dependency with
  | Dependency.Private => do
    let st ← add_private package var metadata st
    .ok (tr, st)
  | Dependency.Provides =>
    if var ∈ tr.provided_vars then
      .error ("Variable " ++ var ++ " Provided by multiple packages")
    else do
      let tr := { tr with provided_vars := tr.provided_vars ++ [var] }
      let st ← add_provides package var metadata st
      .ok (tr, st)
  | Dependency.Requires =>
    .ok ({ tr with depends_vars := insertSet tr.depends_vars var }, st)
  | Dependency.Overridable =>
    let tr :=
      if (lookupA var tr.overridable_meta).isNone then
        let tr := { tr with overridable_meta := tr.overridable_meta ++ [(var, [metadata])] }
        if is_sparse then { tr with sparse_added := sparseAddedSet tr.sparse_added var sparse_id }
        else tr
      else tr
    let tr :=
      if is_sparse then
        if sparseAddedGet tr.sparse_added var sparse_id then tr
        else
          { tr with
            overridable_meta :=
              updateA var ((lookupA var tr.overridable_meta).getD [] ++ [metadata])
                tr.overridable_meta,
            sparse_added := sparseAddedSet tr.sparse_added var sparse_id }
      else tr
    .ok ({ tr with overridable_vars := bumpCount tr.overridable_vars var }, st)
  | Dependency.None => .error "Unknown dependency"

/-- Loop body of `DependencyTracker::CheckRequires`: throw on the first
required name that is not provided. -/
def checkRequiresAux (provided : List String) : List String → Except String Unit
  | [] => .ok ()
  | v :: rest =>
    if v ∈ provided then checkRequiresAux provided rest
    else .error ("Variable " ++ v
      ++ " registered as required, but not provided by any package!\n")

/-- Embedding of `DependencyTracker::CheckRequires`. -/
def DependencyTracker.CheckRequires (tr : DependencyTracker) : Except String Unit :=
  checkRequiresAux tr.provided_vars tr.depends_vars

/-- Warning text emitted by `CheckOverridable` for an ambiguous overridable
name (non-fatal `PARTHENON_DEBUG_WARN`). -/
def overridableWarning (var : String) : String :=
  "Variable " ++ var ++ " registered as overridable multiple times, but never provided."
    ++ " This results in undefined behaviour as to which package will provide"
    ++ " it.\n"

/-- Fold of the installation callback over a candidate list
(`for (auto &metadata : mvec) add_to_state(var, metadata)`). -/
def addAllMeta {σ : Type} (add_to_state : String → Metadata → σ → Except String σ)
    (var : String) : List Metadata → σ → Except String σ
  | [], st => .ok st
  | m :: rest, st => do
    let st ← add_to_state var m st
    addAllMeta add_to_state var rest st

/-- Loop body of `DependencyTracker::CheckOverridable`: skip provided names,
warn when an unprovided name's counter exceeds 1, and install every
candidate of an unprovided name. Warnings are accumulated in a list (they
are diagnostic output in the source). -/
def checkOverridableAux {σ : Type} (add_to_state : String → Metadata → σ → Except String σ)
    (provided : List String) (meta : List (String × List Metadata)) :
    List (String × Nat) → List String → σ → Except String (List String × σ)
  | [], warns, st => .ok (warns, st)
  | (var, count) :: rest, warns, st =>
    if var ∈ provided then
      checkOverridableAux add_to_state provided meta rest warns st
    else
      let warns := if count > 1 then warns ++ [overridableWarning var] else warns
      match addAllMeta add_to_state var ((lookupA var meta).getD []) st with
      | .error e => .error e
      | .ok st => checkOverridableAux add_to_state provided meta rest warns st

/-- Embedding of `DependencyTracker::CheckOverridable`. -/
def DependencyTracker.CheckOverridable {σ : Type}
    (add_to_state : String → Metadata → σ → Except String σ)
    (tr : DependencyTracker) (st : σ) : Except String (List String × σ) :=
  checkOverridableAux add_to_state tr.provided_vars tr.overridable_meta
    tr.overridable_vars [] st

/-- Modelled from the spec: a `Package` is a `StateDescriptor` on the input
side (`state_descriptor.hpp` is not in this slice); per the spec it exposes
`label()`, `AllFields()`, `AllSparseFields()` (name → ordered list of
Metadata, one per distinct id), `AllSwarms()`, `AllSwarmValues(swarm)` and
`SwarmPresent(name)`. -/
structure Package where
  label : String
  allFields : List (String × Metadata)
  allSparseFields : List (String × List Metadata)
  allSwarms : List (String × Metadata)
  allSwarmValues : List (String × List (String × Metadata))
deriving DecidableEq, Repr

/-- Query `StateDescriptor::SwarmPresent` on a package. -/
def Package.SwarmPresent (p : Package) (name : String) : Bool :=
  (lookupA name p.allSwarms).isSome

/-- Embedding of `StateDescriptor::ValidateMetadata`: `MetadataLoop` (header,
not in this slice) is modelled from the spec as visiting every plain field,
every sparse-field id and every swarm of the package, rewriting an unset
dependency kind to `Provides` in place. -/
def Package.ValidateMetadata (p : Package) : Package :=
  { p with
    allFields := p.allFields.map (fun q => (q.1, q.2.validate))
    allSparseFields := p.allSparseFields.map (fun q => (q.1, q.2.map Metadata.validate))
    allSwarms := p.allSwarms.map (fun q => (q.1, q.2.validate)) }

/-- Lookup of `packages[label]` (the resolver's package map, keyed by
label). -/
def findPackage (packages : List Package) (label : String) : Option Package :=
  packages.find? (fun p => p.label = label)

/-- Access `packages[package]->AllSparseFields().at(var)`: `at` throws
`out_of_range` when the name is absent; a missing package would dereference
a default-constructed null pointer, also modelled as an error. Both are
unreachable from `ResolvePackages`, which only sorts names taken from the
package's own map. -/
def sparseFieldsAt (packages : List Package) (label var : String) :
    Except String (List Metadata) :=
  match findPackage packages label with
  | none => .error "packages.at: package not found"
  | some p =>
    match lookupA var p.allSparseFields with
    | none => .error "AllSparseFields.at: variable not found"
    | some mvec => .ok mvec

/-- Resolver callback `add_private_var`: install a plain field under the
package-qualified name, discarding `AddField`'s boolean. -/
def add_private_var : String → String → Metadata → StateDescriptor → Except String StateDescriptor :=
  fun package var metadata state =>
    (state.AddField (package ++ "::" ++ var) metadata).map (fun r => r.2)

/-- Resolver callback `add_provides_var`: install a plain field under the
bare name. -/
def add_provides_var : String → String → Metadata → StateDescriptor → Except String StateDescriptor :=
  fun _package var metadata state =>
    (state.AddField var metadata).map (fun r => r.2)

/-- Resolver callback `add_overridable_var`: install an overridable field
under the bare name. -/
def add_overridable_var : String → Metadata → StateDescriptor → Except String StateDescriptor :=
  fun var metadata state => (state.AddField var metadata).map (fun r => r.2)

/-- Fold of `state->AddField(name, m)` over a sparse metadata vector. -/
def addFieldsAll (name : String) : List Metadata → StateDescriptor → Except String StateDescriptor
  | [], state => .ok state
  | m :: rest, state => do
    let r ← state.AddField name m
    addFieldsAll name rest r.2

/-- Resolver callback `add_private_sparse`: install every id of the
package's sparse vector for this variable under the package-qualified
name. -/
def add_private_sparse (packages : List Package) :
    String → String → Metadata → StateDescriptor → Except String StateDescriptor :=
  fun package var _metadata state => do
    let mvec ← sparseFieldsAt packages package var
    addFieldsAll (package ++ "::" ++ var) mvec state

/-- Resolver callback `add_provides_sparse`: install every id of the
package's sparse vector for this variable under the bare name. -/
def add_provides_sparse (packages : List Package) :
    String → String → Metadata → StateDescriptor → Except String StateDescriptor :=
  fun package var _metadata state => do
    let mvec ← sparseFieldsAt packages package var
    addFieldsAll var mvec state

/-- Fold of `state->AddSwarmValue(val_name, swarm_name, val_meta)` over a
package's swarm-value map. -/
def addSwarmValuesAll (swarm_name : String) :
    List (String × Metadata) → StateDescriptor → Except String StateDescriptor
  | [], state => .ok state
  | (val_name, val_meta) :: rest, state => do
    let r ← state.AddSwarmValue val_name swarm_name val_meta
    addSwarmValuesAll swarm_name rest r.2

/-- Resolver helper `AddSwarm` (the lambda): install the swarm under its
resolved name and copy all of the owning package's swarm values. The
package's `AllSwarmValues(swarm)` is modelled from the spec as the swarm's
value map, empty when the swarm owns none. -/
def addSwarmAndValues (pkg : Package) (swarm swarm_name : String) (metadata : Metadata)
    (state : StateDescriptor) : Except String StateDescriptor := do
  let r ← state.AddSwarm swarm_name metadata
  addSwarmValuesAll swarm_name ((lookupA swarm pkg.allSwarmValues).getD []) r.2

/-- Resolver callback `add_private_swarm`. -/
def add_private_swarm (packages : List Package) :
    String → String → Metadata → StateDescriptor → Except String StateDescriptor :=
  fun package var metadata state =>
    match findPackage packages package with
    | none => .error "packages.at: package not found"
    | some p => addSwarmAndValues p var (package ++ "::" ++ var) metadata state

/-- Resolver callback `add_provides_swarm`. -/
def add_provides_swarm (packages : List Package) :
    String → String → Metadata → StateDescriptor → Except String StateDescriptor :=
  fun package var metadata state =>
    match findPackage packages package with
    | none => .error "packages.at: package not found"
    | some p => addSwarmAndValues p var var metadata state

/-- Resolver callback `add_overridable_swarm`: install the swarm, then copy
the swarm values of the first package that declares it and stop there. -/
def add_overridable_swarm (packages : List Package) :
    String → Metadata → StateDescriptor → Except String StateDescriptor :=
  fun swarm metadata state => do
    let r ← state.AddSwarm swarm metadata
    match packages.find? (fun p => p.SwarmPresent swarm) with
    | some p => addSwarmValuesAll swarm ((lookupA swarm p.allSwarmValues).getD []) r.2
    | none => .ok r.2

/-- Embedding of `DependencyTracker::SortCollection`: sort every
(name, metadata) pair of a collection in order. -/
def sortCollection {σ : Type}
    (add_private add_provides : String → String → Metadata → σ → Except String σ)
    (package : String) : List (String × Metadata) → DependencyTracker → σ →
    Except String (DependencyTracker × σ)
  | [], tr, st => .ok (tr, st)
  | (var, metadata) :: rest, tr, st => do
    let r ← DependencyTracker.SortVar add_private add_provides tr st package var metadata
    sortCollection add_private add_provides package rest r.1 r.2

/-- Inner loop of the resolver's sparse phase: each metadata of a sparse
vector is sorted independently. -/
def sortSparseVec {σ : Type}
    (add_private add_provides : String → String → Metadata → σ → Except String σ)
    (package var : String) : List Metadata → DependencyTracker → σ →
    Except String (DependencyTracker × σ)
  | [], tr, st => .ok (tr, st)
  | metadata :: rest, tr, st => do
    let r ← DependencyTracker.SortVar add_private add_provides tr st package var metadata
    sortSparseVec add_private add_provides package var rest r.1 r.2

/-- Outer loop of the resolver's sparse phase over a package's sparse-field
map. -/
def sortSparseCollection {σ : Type}
    (add_private add_provides : String → String → Metadata → σ → Except String σ)
    (package : String) : List (String × List Metadata) → DependencyTracker → σ →
    Except String (DependencyTracker × σ)
  | [], tr, st => .ok (tr, st)
  | (var, mvec) :: rest, tr, st => do
    let r ← sortSparseVec add_private add_provides package var mvec tr st
    sortSparseCollection add_private add_provides package rest r.1 r.2

/-- Phase-1 body for one package: plain fields into the field classifier,
every sparse id into the same classifier, swarms into the swarm
classifier. -/
def sortOnePackage (packages : List Package) (p : Package)
    (trv trs : DependencyTracker) (state : StateDescriptor) :
    Except String (DependencyTracker × DependencyTracker × StateDescriptor) := do
  let r1 ← sortCollection add_private_var add_provides_var p.label p.allFields trv state
  let r2 ← sortSparseCollection (add_private_sparse packages) (add_provides_sparse packages)
    p.label p.allSparseFields r1.1 r1.2
  let r3 ← sortCollection (add_private_swarm packages) (add_provides_swarm packages)
    p.label p.allSwarms trs r2.2
  .ok (r2.1, r3.1, r3.2)

/-- Phase-1 loop over all packages. -/
def sortAllPackages (packages : List Package) : List Package →
    DependencyTracker → DependencyTracker → StateDescriptor →
    Except String (DependencyTracker × DependencyTracker × StateDescriptor)
  | [], trv, trs, state => .ok (trv, trs, state)
  | p :: rest, trv, trs, state => do
    let r ← sortOnePackage packages p trv trs state
    sortAllPackages packages rest r.1 r.2.1 r.2.2

/-- Embedding of `ResolvePackages`. In the source each package is
normalized (`ValidateMetadata`, an in-place mutation) immediately before its
own classification and before any callback reads it back through the package
map, so normalizing every package up front is observationally equal; the
pipeline then runs the three phases and returns the accumulated non-fatal
warnings together with the resolved state. -/
def ResolvePackages (packages : List Package) :
    Except String (List String × StateDescriptor) := do
  let state := StateDescriptor.mkEmpty "parthenon::resolved_state"
  let packages := packages.map Package.ValidateMetadata
  let r ← sortAllPackages packages packages DependencyTracker.mkEmpty
    DependencyTracker.mkEmpty state
  let var_tracker := r.1
  let swarm_tracker := r.2.1
  var_tracker.CheckRequires
  swarm_tracker.CheckRequires
  let r1 ← var_tracker.CheckOverridable add_overridable_var r.2.2
  let r2 ← swarm_tracker.CheckOverridable (add_overridable_swarm packages) r1.2
  .ok (r1.1 ++ r2.1, r2.2)

/-! Association-list lemmas shared by the proofs. -/

theorem lookupA_append_of_none {α : Type} {k : String} {l : List (String × α)}
    (l' : List (String × α)) (h : lookupA k l = none) :
    lookupA k (l ++ l') = lookupA k l' := by
  induction l with
  | nil => simp
  | cons q rest ih =>
    obtain ⟨k', v⟩ := q
    by_cases hk : k' = k
    · simp [hk] at h
    · simp only [List.cons_append, lookupA_cons, hk, if_false] at h ⊢
      exact ih h

theorem lookupA_append_of_some {α : Type} {k : String} {l : List (String × α)} {v : α}
    (l' : List (String × α)) (h : lookupA k l = some v) :
    lookupA k (l ++ l') = some v := by
  induction l with
  | nil => simp at h
  | cons q rest ih =>
    obtain ⟨k', v'⟩ := q
    by_cases hk : k' = k
    · simp only [lookupA_cons, hk, if_true] at h
      simp [hk, h]
    · simp only [List.cons_append, lookupA_cons, hk, if_false] at h ⊢
      exact ih h

theorem isSome_lookupA_append {α : Type} (k : String) (l l' : List (String × α)) :
    (lookupA k (l ++ l')).isSome = ((lookupA k l).isSome || (lookupA k l').isSome) := by
  cases h : lookupA k l with
  | none => rw [lookupA_append_of_none l' h]; simp
  | some v => rw [lookupA_append_of_some l' h]; simp

theorem lookupA_updateA_ne {α : Type} {n k : String} (v : α) (l : List (String × α))
    (h : n ≠ k) : lookupA k (updateA n v l) = lookupA k l := by
  induction l with
  | nil => simp
  | cons q rest ih =>
    obtain ⟨k', v'⟩ := q
    by_cases hk : k' = n
    · subst hk
      simp [h]
    · simp [hk, ih]

theorem isSome_lookupA_updateA {α : Type} (n k : String) (v : α) (l : List (String × α)) :
    (lookupA k (updateA n v l)).isSome = (lookupA k l).isSome := by
  induction l with
  | nil => simp
  | cons q rest ih =>
    obtain ⟨k', v'⟩ := q
    by_cases hk : k' = n
    · subst hk
      by_cases hn : k' = k <;> simp [hn]
    · by_cases hn : k' = k
      · subst hn
        simp [hk]
      · simp [hk, hn, ih]

theorem lookupA_updateA_self {α : Type} {n : String} (v : α) {l : List (String × α)}
    (h : (lookupA n l).isSome = true) : lookupA n (updateA n v l) = some v := by
  induction l with
  | nil => simp at h
  | cons q rest ih =>
    obtain ⟨k', v'⟩ := q
    by_cases hk : k' = n
    · subst hk
      simp
    · simp only [lookupA_cons, hk, if_false] at h
      simp [hk, ih h]

/-! Concrete metadata fixtures used by witnesses and counterexamples. -/

/-- Sparse metadata record with the given dependency kind and id. -/
def sparseMeta (d : Dependency) (id : Int) : Metadata := ⟨d, true, id, [], [], ""⟩

/-- Plain (non-sparse) metadata record with the given dependency kind. -/
def plainMeta (d : Dependency) : Metadata := ⟨d, false, 0, [], [], ""⟩

/-! Claim C7: plain-field `addField`. -/

theorem associate_associate (m : Metadata) (c : Prop) [Decidable c] (s s' : String) :
    ((if c then m.Associate s else m).Associate s') = m.Associate s' := by
  split <;> rfl

/-- Claim C7: for every `addField` call with non-sparse metadata, an
already-present field name reports "not added" with no error and no change
to the stored state, and a new name is inserted with its association cleared
to the empty string and reports "added". -/
theorem claim_C7_plain_addField_first_wins (sd : StateDescriptor) (name : String)
    (m : Metadata) (hs : m.sparse = false) :
    ((lookupA name sd.metadataMap).isSome = true → sd.AddField name m = .ok (false, sd))
    ∧ (lookupA name sd.metadataMap = none →
        sd.AddField name m = .ok (true,
          { sd with metadataMap := sd.metadataMap ++ [(name, m.Associate "")] })
        ∧ lookupA name (sd.metadataMap ++ [(name, m.Associate "")]) = some (m.Associate "")) := by
  constructor
  · intro h
    obtain ⟨m0, hm0⟩ := Option.isSome_iff_exists.mp h
    simp [StateDescriptor.AddField, hs, hm0]
  · intro h
    constructor
    · simp [StateDescriptor.AddField, hs, h, Metadata.getAssociated, associate_associate]
    · rw [lookupA_append_of_none _ h]
      simp

/-- Witness for C7 at a concrete state and metadata. -/
theorem claim_C7_plain_addField_first_wins_witness :
    ((plainMeta Dependency.Provides).sparse = false)
    ∧ (((lookupA "X" (StateDescriptor.mkEmpty "s").metadataMap).isSome = true →
        (StateDescriptor.mkEmpty "s").AddField "X" (plainMeta Dependency.Provides)
          = .ok (false, StateDescriptor.mkEmpty "s"))
      ∧ (lookupA "X" (StateDescriptor.mkEmpty "s").metadataMap = none →
          (StateDescriptor.mkEmpty "s").AddField "X" (plainMeta Dependency.Provides)
            = .ok (true, { StateDescriptor.mkEmpty "s" with
                metadataMap := (StateDescriptor.mkEmpty "s").metadataMap
                  ++ [("X", (plainMeta Dependency.Provides).Associate "")] })
          ∧ lookupA "X" ((StateDescriptor.mkEmpty "s").metadataMap
              ++ [("X", (plainMeta Dependency.Provides).Associate "")])
            = some ((plainMeta Dependency.Provides).Associate ""))) :=
  ⟨rfl, claim_C7_plain_addField_first_wins (StateDescriptor.mkEmpty "s") "X"
    (plainMeta Dependency.Provides) rfl⟩

/-! Claim C6: sparse-field `addField`. -/

/-- Claim C6 (amended): for a sparse `addField` on an already-present name,
a shape/flag mismatch (ignoring id) against the first stored entry is fatal;
when shapes/flags agree, the incoming id is compared against the first
stored entry's id only — equality reports "not added" without modification,
while any other id (including one equal to a later stored entry's id) is
appended. -/
theorem claim_C6_sparse_addField_first_entry (sd : StateDescriptor) (name : String)
    (m m0 : Metadata) (mrest : List Metadata) (hs : m.sparse = true)
    (hl : lookupA name sd.sparseMetadataMap = some (m0 :: mrest)) :
    (Metadata.SparseEqual m0 m = false →
      sd.AddField name m = .error ("All sparse variables with the same name must have the "
        ++ "same metadata flags and shape."))
    ∧ (Metadata.SparseEqual m0 m = true → m0.sparseId = m.sparseId →
        sd.AddField name m = .ok (false, sd))
    ∧ (Metadata.SparseEqual m0 m = true → m0.sparseId ≠ m.sparseId →
        sd.AddField name m = .ok (true, { sd with
          sparseMetadataMap := updateA name ((m0 :: mrest) ++ [m]) sd.sparseMetadataMap })) := by
  refine ⟨fun hne => ?_, fun heq hid => ?_, fun heq hid => ?_⟩
  · simp [StateDescriptor.AddField, hs, hl, hne]
  · simp [StateDescriptor.AddField, hs, hl, heq, hid]
  · simp [StateDescriptor.AddField, hs, hl, heq, hid]

/-- Concrete merge-target state holding sparse `Y` with id 1. -/
def sdY1 : StateDescriptor :=
  ⟨"s", [], [("Y", [sparseMeta Dependency.Provides 1])], [], []⟩

/-- Concrete merge-target state holding sparse `Y` with ids 1 and 2. -/
def sdY12 : StateDescriptor :=
  ⟨"s", [], [("Y", [sparseMeta Dependency.Provides 1, sparseMeta Dependency.Provides 2])],
    [], []⟩

/-- Concrete merge-target state holding sparse `Y` with ids 1, 2 and a
duplicate 2. -/
def sdY122 : StateDescriptor :=
  ⟨"s", [], [("Y", [sparseMeta Dependency.Provides 1, sparseMeta Dependency.Provides 2,
    sparseMeta Dependency.Provides 2])], [], []⟩

/-- Witness for C6 at the concrete state `sdY1`: matching shape, same id as
the first entry, reports "not added". -/
theorem claim_C6_sparse_addField_first_entry_witness :
    ((sparseMeta Dependency.Provides 1).sparse = true
      ∧ lookupA "Y" sdY1.sparseMetadataMap = some (sparseMeta Dependency.Provides 1 :: []))
    ∧ (Metadata.SparseEqual (sparseMeta Dependency.Provides 1)
          (sparseMeta Dependency.Provides 1) = true →
        (sparseMeta Dependency.Provides 1).sparseId
            = (sparseMeta Dependency.Provides 1).sparseId →
        sdY1.AddField "Y" (sparseMeta Dependency.Provides 1) = .ok (false, sdY1)) :=
  ⟨⟨rfl, rfl⟩,
    (claim_C6_sparse_addField_first_entry sdY1 "Y" (sparseMeta Dependency.Provides 1)
      (sparseMeta Dependency.Provides 1) [] rfl rfl).2.1⟩

/-- Counterexample to C6 as stated: in a state whose stored list for `Y`
holds ids 1 and 2 (reachable by two `addField` calls from the empty state),
re-adding id 2 — an id already present in the list but not first — reports
"added" and appends, growing the list to length 3, instead of the claimed
silent no-op. -/
theorem claim_C6_cex :
    (StateDescriptor.mkEmpty "s").AddField "Y" (sparseMeta Dependency.Provides 1)
      = .ok (true, sdY1)
    ∧ sdY1.AddField "Y" (sparseMeta Dependency.Provides 2) = .ok (true, sdY12)
    ∧ (2 : Int) ∈ ((lookupA "Y" sdY12.sparseMetadataMap).getD []).map Metadata.GetSparseId
    ∧ sdY12.AddField "Y" (sparseMeta Dependency.Provides 2) = .ok (true, sdY122)
    ∧ ((lookupA "Y" sdY122.sparseMetadataMap).getD []).length = 3 := by
  exact ⟨rfl, rfl, by decide, rfl, rfl⟩

/-! Claim C2: disjointness of the plain-field and sparse-field maps. -/

/-- Concrete merge-target state holding plain `X`. -/
def sdPlainX : StateDescriptor :=
  ⟨"s", [("X", plainMeta Dependency.Provides)], [], [], []⟩

/-- Concrete merge-target state holding `X` in both field maps. -/
def sdBothX : StateDescriptor :=
  ⟨"s", [("X", plainMeta Dependency.Provides)],
    [("X", [sparseMeta Dependency.Provides 3])], [], []⟩

/-- Counterexample to C2 as stated: two `addField` calls from the empty
state — plain `X`, then sparse `X` — leave the name `X` present in both
the plain-field map and the sparse-field map, because the sparse branch
never consults the plain map and vice versa. -/
theorem claim_C2_cex :
    (StateDescriptor.mkEmpty "s").AddField "X" (plainMeta Dependency.Provides)
      = .ok (true, sdPlainX)
    ∧ sdPlainX.AddField "X" (sparseMeta Dependency.Provides 3) = .ok (true, sdBothX)
    ∧ (lookupA "X" sdBothX.metadataMap).isSome = true
    ∧ (lookupA "X" sdBothX.sparseMetadataMap).isSome = true :=
  ⟨rfl, rfl, rfl, rfl⟩

/-- Sequence of `addField` calls threaded through the merge target,
stopping at the first fatal error. -/
def runAddFields : List (String × Metadata) → StateDescriptor → Except String StateDescriptor
  | [], sd => .ok sd
  | (n, m) :: rest, sd => do
    let r ← sd.AddField n m
    runAddFields rest r.2

/-- Names that occur with non-sparse metadata in a request list. -/
def plainNames (reqs : List (String × Metadata)) : List String :=
  (reqs.filter (fun q => !q.2.sparse)).map (fun q => q.1)

/-- Names that occur with sparse metadata in a request list. -/
def sparseNames (reqs : List (String × Metadata)) : List String :=
  (reqs.filter (fun q => q.2.sparse)).map (fun q => q.1)

theorem mem_plainNames {reqs : List (String × Metadata)} {n : String} {m : Metadata}
    (h : (n, m) ∈ reqs) (hs : m.sparse = false) : n ∈ plainNames reqs := by
  simp only [plainNames, List.mem_map, List.mem_filter]
  exact ⟨(n, m), ⟨h, by simp [hs]⟩, rfl⟩

theorem mem_sparseNames {reqs : List (String × Metadata)} {n : String} {m : Metadata}
    (h : (n, m) ∈ reqs) (hs : m.sparse = true) : n ∈ sparseNames reqs := by
  simp only [sparseNames, List.mem_map, List.mem_filter]
  exact ⟨(n, m), ⟨h, hs⟩, rfl⟩

theorem of_mem_plainNames {reqs : List (String × Metadata)} {n : String}
    (h : n ∈ plainNames reqs) : ∃ m, (n, m) ∈ reqs ∧ m.sparse = false := by
  simp only [plainNames, List.mem_map, List.mem_filter] at h
  obtain ⟨⟨n', m⟩, ⟨hmem, hf⟩, heq⟩ := h
  cases heq
  exact ⟨m, hmem, by simpa using hf⟩

theorem of_mem_sparseNames {reqs : List (String × Metadata)} {n : String}
    (h : n ∈ sparseNames reqs) : ∃ m, (n, m) ∈ reqs ∧ m.sparse = true := by
  simp only [sparseNames, List.mem_map, List.mem_filter] at h
  obtain ⟨⟨n', m⟩, ⟨hmem, hf⟩, heq⟩ := h
  cases heq
  exact ⟨m, hmem, hf⟩

theorem addField_sparse_maps {sd sd' : StateDescriptor} {n : String} {m : Metadata} {b : Bool}
    (hs : m.sparse = true) (h : sd.AddField n m = .ok (b, sd')) :
    sd'.metadataMap = sd.metadataMap
    ∧ ∀ k, (lookupA k sd'.sparseMetadataMap).isSome = true →
        (lookupA k sd.sparseMetadataMap).isSome = true ∨ k = n := by
  simp only [StateDescriptor.AddField, hs, if_true] at h
  cases hl : lookupA n sd.sparseMetadataMap with
  | none =>
    rw [hl] at h
    simp only [Except.ok.injEq, Prod.mk.injEq] at h
    obtain ⟨-, h2⟩ := h
    subst h2
    refine ⟨rfl, fun k hk => ?_⟩
    simp only [isSome_lookupA_append, Bool.or_eq_true] at hk
    rcases hk with hk | hk
    · exact Or.inl hk
    · right
      by_cases he : n = k
      · exact he.symm
      · simp [he] at hk
  | some mvec =>
    rw [hl] at h
    cases mvec with
    | nil => simp at h
    | cons m0 mrest =>
      by_cases heq : Metadata.SparseEqual m0 m = true
      · by_cases hid : m0.sparseId = m.sparseId
        · simp only [heq, if_true, hid, Except.ok.injEq, Prod.mk.injEq] at h
          obtain ⟨-, h2⟩ := h
          subst h2
          exact ⟨rfl, fun k hk => Or.inl hk⟩
        · simp only [heq, if_true, hid, if_false, Except.ok.injEq, Prod.mk.injEq] at h
          obtain ⟨-, h2⟩ := h
          subst h2
          refine ⟨rfl, fun k hk => Or.inl ?_⟩
          simpa [isSome_lookupA_updateA] using hk
      · simp [heq] at h

theorem addField_plain_maps {sd sd' : StateDescriptor} {n : String} {m : Metadata} {b : Bool}
    (hs : m.sparse = false) (h : sd.AddField n m = .ok (b, sd')) :
    sd'.sparseMetadataMap = sd.sparseMetadataMap
    ∧ ∀ k, (lookupA k sd'.metadataMap).isSome = true →
        (lookupA k sd.metadataMap).isSome = true ∨ k = n := by
  simp only [StateDescriptor.AddField, hs, Bool.false_eq_true, if_false] at h
  cases hl : lookupA n sd.metadataMap with
  | none =>
    rw [hl] at h
    simp only [Except.ok.injEq, Prod.mk.injEq] at h
    obtain ⟨-, h2⟩ := h
    subst h2
    refine ⟨rfl, fun k hk => ?_⟩
    simp only [isSome_lookupA_append, Bool.or_eq_true] at hk
    rcases hk with hk | hk
    · exact Or.inl hk
    · right
      by_cases he : n = k
      · exact he.symm
      · simp [he] at hk
  | some m0 =>
    rw [hl] at h
    simp only [Except.ok.injEq, Prod.mk.injEq] at h
    obtain ⟨-, h2⟩ := h
    subst h2
    exact ⟨rfl, fun k hk => Or.inl hk⟩

theorem runAddFields_names (reqs : List (String × Metadata)) :
    ∀ (rest : List (String × Metadata)) (sd sd' : StateDescriptor),
    rest ⊆ reqs →
    (∀ k, (lookupA k sd.metadataMap).isSome = true → k ∈ plainNames reqs) →
    (∀ k, (lookupA k sd.sparseMetadataMap).isSome = true → k ∈ sparseNames reqs) →
    runAddFields rest sd = .ok sd' →
    (∀ k, (lookupA k sd'.metadataMap).isSome = true → k ∈ plainNames reqs)
    ∧ (∀ k, (lookupA k sd'.sparseMetadataMap).isSome = true → k ∈ sparseNames reqs) := by
  intro rest
  induction rest with
  | nil =>
    intro sd sd' _ hP hS hrun
    simp only [runAddFields, Except.ok.injEq] at hrun
    subst hrun
    exact ⟨hP, hS⟩
  | cons q rest ih =>
    obtain ⟨n, m⟩ := q
    intro sd sd' hsub hP hS hrun
    have hmem : (n, m) ∈ reqs := hsub (List.mem_cons_self _ _)
    have hsub' : rest ⊆ reqs := fun x hx => hsub (List.mem_cons_of_mem _ hx)
    simp only [runAddFields] at hrun
    cases hadd : sd.AddField n m with
    | error e =>
      rw [hadd] at hrun
      exact Except.noConfusion hrun
    | ok r =>
      rw [hadd] at hrun
      obtain ⟨b, sd1⟩ := r
      cases hms : m.sparse with
      | true =>
        obtain ⟨hmm, hsm⟩ := addField_sparse_maps hms hadd
        refine ih sd1 sd' hsub' (fun k hk => hP k (by rwa [hmm] at hk)) ?_ hrun
        intro k hk
        rcases hsm k hk with hk' | hk'
        · exact hS k hk'
        · subst hk'
          exact mem_sparseNames hmem hms
      | false =>
        obtain ⟨hmm, hpm⟩ := addField_plain_maps hms hadd
        refine ih sd1 sd' hsub' ?_ (fun k hk => hS k (by rwa [hmm] at hk)) hrun
        intro k hk
        rcases hpm k hk with hk' | hk'
        · exact hP k hk'
        · subst hk'
          exact mem_plainNames hmem hms

/-- Claim C2 (amended): a sequence of `addField` calls from the empty state
keeps the plain-field and sparse-field maps disjoint provided no name occurs
in the sequence with both sparse and non-sparse metadata; without that
proviso the invariant fails (see the counterexample), since neither branch
of `AddField` consults the other map. -/
theorem claim_C2_addField_disjoint (reqs : List (String × Metadata)) (lbl : String)
    (sd : StateDescriptor)
    (hcons : ∀ q ∈ reqs, ∀ q' ∈ reqs,
      Prod.fst q = Prod.fst q' → (Prod.snd q).sparse = (Prod.snd q').sparse)
    (hrun : runAddFields reqs (StateDescriptor.mkEmpty lbl) = .ok sd) (n : String) :
    ¬((lookupA n sd.metadataMap).isSome = true
      ∧ (lookupA n sd.sparseMetadataMap).isSome = true) := by
  have h := runAddFields_names reqs reqs (StateDescriptor.mkEmpty lbl) sd
    (fun x hx => hx) (by intro k hk; simp [StateDescriptor.mkEmpty] at hk)
    (by intro k hk; simp [StateDescriptor.mkEmpty] at hk) hrun
  rintro ⟨h1, h2⟩
  obtain ⟨m, hm, hmf⟩ := of_mem_plainNames (h.1 n h1)
  obtain ⟨m', hm', hmt⟩ := of_mem_sparseNames (h.2 n h2)
  have := hcons (n, m) hm (n, m') hm' rfl
  rw [hmf, hmt] at this
  exact Bool.false_ne_true this

/-- Resolved concrete state used by the C2 witness. -/
def sdXZ : StateDescriptor :=
  ⟨"s", [("X", plainMeta Dependency.Provides)],
    [("Z", [sparseMeta Dependency.Provides 1])], [], []⟩

/-- Witness for C2 on the two-request sequence plain `X`, sparse `Z`. -/
theorem claim_C2_addField_disjoint_witness :
    ¬((lookupA "X" sdXZ.metadataMap).isSome = true
      ∧ (lookupA "X" sdXZ.sparseMetadataMap).isSome = true) :=
  claim_C2_addField_disjoint
    [("X", plainMeta Dependency.Provides), ("Z", sparseMeta Dependency.Provides 1)]
    "s" sdXZ (by decide) rfl "X"

/-! Claim C9: the normalization pass. -/

theorem validate_validate (m : Metadata) : m.validate.validate = m.validate := by
  unfold Metadata.validate
  by_cases h : m.dependency = Dependency.None <;> simp [h]

theorem validate_dep_ne_none (m : Metadata) : m.validate.dependency ≠ Dependency.None := by
  unfold Metadata.validate
  by_cases h : m.dependency = Dependency.None <;> simp [h]

/-- Membership of a dependency kind in the four concrete kinds. -/
def concreteKind (d : Dependency) : Prop :=
  d = Dependency.Private ∨ d = Dependency.Provides ∨ d = Dependency.Requires
    ∨ d = Dependency.Overridable

theorem concreteKind_of_ne_none {d : Dependency} (h : d ≠ Dependency.None) :
    concreteKind d := by
  cases d <;> simp_all [concreteKind]

theorem map_validate_meta_idem (l : List Metadata) :
    (l.map Metadata.validate).map Metadata.validate = l.map Metadata.validate := by
  induction l with
  | nil => rfl
  | cons mm rest ih => simp [ih, validate_validate]

theorem map_validate_pair_idem (l : List (String × Metadata)) :
    ((l.map (fun q => (q.1, q.2.validate))).map (fun q => (q.1, q.2.validate)))
      = l.map (fun q => (q.1, q.2.validate)) := by
  induction l with
  | nil => rfl
  | cons q rest ih => simp [ih, validate_validate]

theorem map_validate_vec_idem (l : List (String × List Metadata)) :
    ((l.map (fun q => (q.1, q.2.map Metadata.validate))).map
        (fun q => (q.1, q.2.map Metadata.validate)))
      = l.map (fun q => (q.1, q.2.map Metadata.validate)) := by
  induction l with
  | nil => rfl
  | cons q rest ih =>
    simp only [List.map_cons, ih, List.cons.injEq, and_true, Prod.mk.injEq, true_and]
    exact map_validate_meta_idem q.2

/-- Claim C9: normalization is idempotent and total — running
`ValidateMetadata` twice equals running it once; an unset kind is rewritten
to `Provides` while a concrete kind is untouched; and afterwards every plain
field, sparse id and swarm of the package carries one of the four concrete
kinds. -/
theorem claim_C9_normalization_idempotent_total (p : Package) (m : Metadata) :
    p.ValidateMetadata.ValidateMetadata = p.ValidateMetadata
    ∧ (m.dependency = Dependency.None → m.validate.dependency = Dependency.Provides)
    ∧ (m.dependency ≠ Dependency.None → m.validate = m)
    ∧ (∀ q ∈ p.ValidateMetadata.allFields, concreteKind (Prod.snd q).dependency)
    ∧ (∀ q ∈ p.ValidateMetadata.allSparseFields, ∀ mm ∈ Prod.snd q,
        concreteKind mm.dependency)
    ∧ (∀ q ∈ p.ValidateMetadata.allSwarms, concreteKind (Prod.snd q).dependency) := by
  refine ⟨?_, ?_, ?_, ?_, ?_, ?_⟩
  · simp only [Package.ValidateMetadata]
    congr 1
    · exact map_validate_pair_idem p.allFields
    · exact map_validate_vec_idem p.allSparseFields
    · exact map_validate_pair_idem p.allSwarms
  · intro h
    simp [Metadata.validate, h]
  · intro h
    simp [Metadata.validate, h]
  · intro q hq
    simp only [Package.ValidateMetadata, List.mem_map] at hq
    obtain ⟨a, -, ha⟩ := hq
    subst ha
    exact concreteKind_of_ne_none (validate_dep_ne_none a.2)
  · intro q hq mm hmm
    simp only [Package.ValidateMetadata, List.mem_map] at hq
    obtain ⟨a, -, ha⟩ := hq
    subst ha
    simp only [List.mem_map] at hmm
    obtain ⟨mm0, -, hmm0⟩ := hmm
    subst hmm0
    exact concreteKind_of_ne_none (validate_dep_ne_none mm0)
  · intro q hq
    simp only [Package.ValidateMetadata, List.mem_map] at hq
    obtain ⟨a, -, ha⟩ := hq
    subst ha
    exact concreteKind_of_ne_none (validate_dep_ne_none a.2)

/-- Concrete one-field package used by the C9 witness. -/
def pkgNone : Package := ⟨"pkg", [("X", plainMeta Dependency.None)], [], [], []⟩

/-- Witness for C9 at a concrete package whose single field has the unset
kind. -/
theorem claim_C9_normalization_idempotent_total_witness :
    pkgNone.ValidateMetadata.ValidateMetadata = pkgNone.ValidateMetadata
    ∧ ((plainMeta Dependency.None).dependency = Dependency.None →
        (plainMeta Dependency.None).validate.dependency = Dependency.Provides)
    ∧ ((plainMeta Dependency.None).dependency ≠ Dependency.None →
        (plainMeta Dependency.None).validate = plainMeta Dependency.None)
    ∧ (∀ q ∈ pkgNone.ValidateMetadata.allFields, concreteKind (Prod.snd q).dependency)
    ∧ (∀ q ∈ pkgNone.ValidateMetadata.allSparseFields, ∀ mm ∈ Prod.snd q,
        concreteKind mm.dependency)
    ∧ (∀ q ∈ pkgNone.ValidateMetadata.allSwarms, concreteKind (Prod.snd q).dependency) :=
  claim_C9_normalization_idempotent_total pkgNone (plainMeta Dependency.None)

/-! Claims C3 and C8: classification of `Provides` and `Private`
variables. The installation callbacks are template parameters of
`DependencyTracker::Sort`; instantiating them with recorders that log the
(installed name, metadata) pairs exposes exactly which store actions the
classifier forwards, with the same naming convention as the resolver's
`add_private_var` / `add_provides_var` lambdas. -/

/-- Recorder for the "store under package-qualified name" strategy. -/
def recordPrivate : String → String → Metadata → List (String × Metadata) →
    Except String (List (String × Metadata)) :=
  fun package var metadata st => .ok (st ++ [(package ++ "::" ++ var, metadata)])

/-- Recorder for the "store under bare name" strategy. -/
def recordProvides : String → String → Metadata → List (String × Metadata) →
    Except String (List (String × Metadata)) :=
  fun _package var metadata st => .ok (st ++ [(var, metadata)])

/-- Recorder for the overridable installation strategy (bare name). -/
def recordOverridable : String → Metadata → List (String × Metadata) →
    Except String (List (String × Metadata)) :=
  fun var metadata st => .ok (st ++ [(var, metadata)])

theorem qualified_ne_bare (package var : String) : package ++ "::" ++ var ≠ var := by
  intro h
  have hlen := congrArg String.length h
  have h2 : ("::" : String).length = 2 := rfl
  simp only [String.length_append, h2] at hlen
  omega

/-- Claim C3: classifying a `Provides` variable whose name is already in the
provided-set is a fatal error whose message names the variable; a name not
yet provided is marked provided and forwarded to the store-under-bare-name
action, without error. -/
theorem claim_C3_provides_duplicate_fatal (tr : DependencyTracker)
    (st : List (String × Metadata)) (package var : String) (metadata : Metadata)
    (hd : metadata.dependency = Dependency.Provides) :
    (var ∈ tr.provided_vars →
      DependencyTracker.SortVar recordPrivate recordProvides tr st package var metadata
        = .error ("Variable " ++ var ++ " Provided by multiple packages"))
    ∧ (var ∉ tr.provided_vars →
      DependencyTracker.SortVar recordPrivate recordProvides tr st package var metadata
        = .ok ({ tr with provided_vars := tr.provided_vars ++ [var] },
            st ++ [(var, metadata)])) := by
  constructor
  · intro h
    simp only [DependencyTracker.SortVar, Metadata.Dep, hd]
    rw [if_pos h]
  · intro h
    simp only [DependencyTracker.SortVar, Metadata.Dep, hd]
    rw [if_neg h]
    rfl

/-- Tracker with one provided name, used by the C3 witness. -/
def trDup : DependencyTracker := ⟨["X"], [], [], [], []⟩

/-- Witness for C3: the duplicate case at a provided name `X` and the fresh
case at an empty tracker. -/
theorem claim_C3_provides_duplicate_fatal_witness :
    (("X" ∈ trDup.provided_vars →
      DependencyTracker.SortVar recordPrivate recordProvides trDup [] "pkg" "X"
          (plainMeta Dependency.Provides)
        = .error ("Variable " ++ "X" ++ " Provided by multiple packages"))
    ∧ ("X" ∉ trDup.provided_vars →
      DependencyTracker.SortVar recordPrivate recordProvides trDup [] "pkg" "X"
          (plainMeta Dependency.Provides)
        = .ok ({ trDup with provided_vars := trDup.provided_vars ++ ["X"] },
            [] ++ [("X", plainMeta Dependency.Provides)])))
    ∧ (("Y" ∈ DependencyTracker.mkEmpty.provided_vars →
      DependencyTracker.SortVar recordPrivate recordProvides DependencyTracker.mkEmpty []
          "pkg" "Y" (plainMeta Dependency.Provides)
        = .error ("Variable " ++ "Y" ++ " Provided by multiple packages"))
    ∧ ("Y" ∉ DependencyTracker.mkEmpty.provided_vars →
      DependencyTracker.SortVar recordPrivate recordProvides DependencyTracker.mkEmpty []
          "pkg" "Y" (plainMeta Dependency.Provides)
        = .ok ({ DependencyTracker.mkEmpty with
              provided_vars := DependencyTracker.mkEmpty.provided_vars ++ ["Y"] },
            [] ++ [("Y", plainMeta Dependency.Provides)]))) :=
  ⟨claim_C3_provides_duplicate_fatal trDup [] "pkg" "X" (plainMeta Dependency.Provides) rfl,
    claim_C3_provides_duplicate_fatal DependencyTracker.mkEmpty [] "pkg" "Y"
      (plainMeta Dependency.Provides) rfl⟩

/-- Claim C8: a `Private` variable is forwarded unconditionally (no
provided-set check, no error, tracker untouched) to the store action under
the package-qualified name `package::var`, which is never equal to the bare
name; a concrete resolution run installs private `X` of package `foo` only
as `foo::X` and not as `X`. -/
theorem claim_C8_private_package_qualified (tr : DependencyTracker)
    (st : List (String × Metadata)) (package var : String) (metadata : Metadata)
    (hd : metadata.dependency = Dependency.Private) :
    (DependencyTracker.SortVar recordPrivate recordProvides tr st package var metadata
      = .ok (tr, st ++ [(package ++ "::" ++ var, metadata)]))
    ∧ package ++ "::" ++ var ≠ var
    ∧ ResolvePackages [⟨"foo", [("X", plainMeta Dependency.Private)], [], [], []⟩]
        = .ok ([], ⟨"parthenon::resolved_state",
            [("foo::X", plainMeta Dependency.Private)], [], [], []⟩)
    ∧ lookupA "X" [("foo::X", plainMeta Dependency.Private)] = none := by
  refine ⟨?_, qualified_ne_bare package var, rfl, rfl⟩
  simp only [DependencyTracker.SortVar, Metadata.Dep, hd]
  rfl

/-- Witness for C8 at a concrete tracker, package and variable. -/
theorem claim_C8_private_package_qualified_witness :
    (DependencyTracker.SortVar recordPrivate recordProvides DependencyTracker.mkEmpty []
        "foo" "X" (plainMeta Dependency.Private)
      = .ok (DependencyTracker.mkEmpty, [] ++ [("foo" ++ "::" ++ "X",
          plainMeta Dependency.Private)]))
    ∧ "foo" ++ "::" ++ "X" ≠ "X"
    ∧ ResolvePackages [⟨"foo", [("X", plainMeta Dependency.Private)], [], [], []⟩]
        = .ok ([], ⟨"parthenon::resolved_state",
            [("foo::X", plainMeta Dependency.Private)], [], [], []⟩)
    ∧ lookupA "X" [("foo::X", plainMeta Dependency.Private)] = none :=
  claim_C8_private_package_qualified DependencyTracker.mkEmpty [] "foo" "X"
    (plainMeta Dependency.Private) rfl

/-! Claim C4: requirement satisfaction. -/

@[simp] theorem except_bind_ok {ε α β : Type} (x : α) (f : α → Except ε β) :
    (Except.ok x >>= f) = f x := rfl

@[simp] theorem except_bind_error {ε α β : Type} (e : ε) (f : α → Except ε β) :
    ((Except.error e : Except ε α) >>= f) = Except.error e := rfl

theorem checkRequiresAux_ok (provided l : List String) (h : ∀ v ∈ l, v ∈ provided) :
    checkRequiresAux provided l = .ok () := by
  induction l with
  | nil => rfl
  | cons v rest ih =>
    have hv := h v (List.mem_cons_self _ _)
    simp only [checkRequiresAux, if_pos hv]
    exact ih (fun w hw => h w (List.mem_cons_of_mem _ hw))

theorem checkRequiresAux_unsatisfied (provided l : List String) (v : String)
    (hv : v ∈ l) (hnp : v ∉ provided) :
    ∃ w, w ∈ l ∧ w ∉ provided ∧ checkRequiresAux provided l
      = .error ("Variable " ++ w
        ++ " registered as required, but not provided by any package!\n") := by
  induction l with
  | nil => simp at hv
  | cons u rest ih =>
    by_cases hu : u ∈ provided
    · have hv' : v ∈ rest := by
        rcases List.mem_cons.mp hv with h | h
        · exact absurd (h ▸ hu) hnp
        · exact h
      obtain ⟨w, hw1, hw2, hw3⟩ := ih hv'
      refine ⟨w, List.mem_cons_of_mem _ hw1, hw2, ?_⟩
      simpa [checkRequiresAux, if_pos hu] using hw3
    · exact ⟨u, List.mem_cons_self _ _, hu, by simp [checkRequiresAux, hu]⟩

/-- Claim C4: after classification, `checkRequires` fails fatally, naming
the variable, exactly when some required name is not provided; when every
required name is provided it succeeds; and a name required by package `A`
and provided by package `B` resolves successfully, the merged result
containing it exactly once. -/
theorem claim_C4_check_requires (tr : DependencyTracker) (v name : String) (m : Metadata)
    (hm : m.dependency = Dependency.Provides) (hms : m.sparse = false) :
    ((∀ w ∈ tr.depends_vars, w ∈ tr.provided_vars) →
      tr.CheckRequires = .ok ())
    ∧ (v ∈ tr.depends_vars → v ∉ tr.provided_vars →
        ∃ w, w ∈ tr.depends_vars ∧ w ∉ tr.provided_vars ∧ tr.CheckRequires
          = .error ("Variable " ++ w
            ++ " registered as required, but not provided by any package!\n"))
    ∧ ResolvePackages
          [⟨"A", [(name, plainMeta Dependency.Requires)], [], [], []⟩,
           ⟨"B", [(name, m)], [], [], []⟩]
        = .ok ([], ⟨"parthenon::resolved_state", [(name, m.Associate "")], [], [], []⟩)
    ∧ (([(name, m.Associate "")].filter (fun q => Prod.fst q == name)).length = 1) := by
  refine ⟨fun h => checkRequiresAux_ok _ _ h,
    fun hv hnp => checkRequiresAux_unsatisfied _ _ v hv hnp, ?_, by simp⟩
  simp [ResolvePackages, Package.ValidateMetadata, Metadata.validate, hm, hms,
    sortAllPackages, sortOnePackage, sortCollection, sortSparseCollection,
    DependencyTracker.SortVar, Metadata.Dep, insertSet, DependencyTracker.mkEmpty,
    StateDescriptor.mkEmpty, add_provides_var, add_private_var, StateDescriptor.AddField,
    associate_associate, DependencyTracker.CheckRequires, checkRequiresAux,
    DependencyTracker.CheckOverridable, checkOverridableAux, Metadata.getAssociated,
    plainMeta, Metadata.Associate]
  by_cases ha : m.associated.length = 0 <;> simp [ha, hm, hms, Except.map]

/-- Tracker with one unsatisfied required name, used by the C4 witness. -/
def trReq : DependencyTracker := ⟨[], ["u"], [], [], []⟩

/-- Witness for C4 at the tracker requiring `u` with nothing provided, and
the concrete name `v` provided by plain `Provides` metadata. -/
theorem claim_C4_check_requires_witness :
    ((∀ w ∈ trReq.depends_vars, w ∈ trReq.provided_vars) →
      trReq.CheckRequires = .ok ())
    ∧ ("u" ∈ trReq.depends_vars → "u" ∉ trReq.provided_vars →
        ∃ w, w ∈ trReq.depends_vars ∧ w ∉ trReq.provided_vars ∧ trReq.CheckRequires
          = .error ("Variable " ++ w
            ++ " registered as required, but not provided by any package!\n"))
    ∧ ResolvePackages
          [⟨"A", [("v", plainMeta Dependency.Requires)], [], [], []⟩,
           ⟨"B", [("v", plainMeta Dependency.Provides)], [], [], []⟩]
        = .ok ([], ⟨"parthenon::resolved_state",
            [("v", (plainMeta Dependency.Provides).Associate "")], [], [], []⟩)
    ∧ (([("v", (plainMeta Dependency.Provides).Associate "")].filter
          (fun q => Prod.fst q == "v")).length = 1) :=
  claim_C4_check_requires trReq "u" "v" (plainMeta Dependency.Provides) rfl rfl

/-! Claim C1: a sparse field provided with two ids. -/

/-- Claim C1 (evaluation at the failing input): for the one-package set in
which sparse field `Y` is declared with ids 1 and 2, both `Provides`,
resolution does not succeed — classifying id 2 finds `Y` already in the
provided-set (inserted while classifying id 1) and throws the
DuplicateProvider error, even though the `add_provides_sparse` callback had
already installed both ids at once. The merge-target half of the claim does
hold in isolation: with `Y` stored at ids 1 and 2, re-adding id 1 reports
"not added" and the list length stays at two. -/
theorem claim_C1_sparse_provides_ids_throws :
    ResolvePackages [⟨"pkg", [],
        [("Y", [sparseMeta Dependency.Provides 1, sparseMeta Dependency.Provides 2])],
        [], []⟩]
      = .error ("Variable " ++ "Y" ++ " Provided by multiple packages")
    ∧ sdY12.AddField "Y" (sparseMeta Dependency.Provides 1) = .ok (false, sdY12)
    ∧ ((lookupA "Y" sdY12.sparseMetadataMap).getD []).length = 2 :=
  ⟨rfl, rfl, rfl⟩

/-! Claim C10: independent provided-sets for fields and swarms. -/

/-- Claim C10: the resolver runs one classifier for fields and a separate
one for swarms, so a name declared `Provides` as a plain field by one
package and `Provides` as a swarm by another resolves without
DuplicateProvider, and the merge target holds both bindings — one in the
plain-field map and one in the swarm map. -/
theorem claim_C10_separate_provided_sets (n : String) (mf ms : Metadata)
    (hmf : mf.dependency = Dependency.Provides) (hmfs : mf.sparse = false)
    (hms : ms.dependency = Dependency.Provides) :
    ResolvePackages
        [⟨"A", [(n, mf)], [], [], []⟩,
         ⟨"B", [], [], [(n, ms)], []⟩]
      = .ok ([], ⟨"parthenon::resolved_state", [(n, mf.Associate "")], [],
          [(n, ms)], []⟩)
    ∧ (lookupA n [(n, mf.Associate "")]).isSome = true
    ∧ (lookupA n [(n, ms)]).isSome = true := by
  refine ⟨?_, by simp, by simp⟩
  simp [ResolvePackages, Package.ValidateMetadata, Metadata.validate, hmf, hmfs, hms,
    sortAllPackages, sortOnePackage, sortCollection, sortSparseCollection,
    DependencyTracker.SortVar, Metadata.Dep, insertSet, DependencyTracker.mkEmpty,
    StateDescriptor.mkEmpty, add_provides_var, add_private_var, StateDescriptor.AddField,
    associate_associate, DependencyTracker.CheckRequires, checkRequiresAux,
    DependencyTracker.CheckOverridable, checkOverridableAux, Metadata.getAssociated,
    Metadata.Associate, add_provides_swarm, add_private_swarm, addSwarmAndValues,
    StateDescriptor.AddSwarm, addSwarmValuesAll, findPackage, Package.SwarmPresent,
    Except.map]
  by_cases ha : mf.associated.length = 0 <;> simp [ha, hmf, hmfs, Except.map]

/-- Witness for C10 at concrete name `n` and concrete metadata. -/
theorem claim_C10_separate_provided_sets_witness :
    ResolvePackages
        [⟨"A", [("n", plainMeta Dependency.Provides)], [], [], []⟩,
         ⟨"B", [], [], [("n", plainMeta Dependency.Provides)], []⟩]
      = .ok ([], ⟨"parthenon::resolved_state",
          [("n", (plainMeta Dependency.Provides).Associate "")], [],
          [("n", plainMeta Dependency.Provides)], []⟩)
    ∧ (lookupA "n" [("n", (plainMeta Dependency.Provides).Associate "")]).isSome = true
    ∧ (lookupA "n" [("n", plainMeta Dependency.Provides)]).isSome = true :=
  claim_C10_separate_provided_sets "n" (plainMeta Dependency.Provides)
    (plainMeta Dependency.Provides) rfl rfl rfl

/-! Claim C5: overridable resolution. The classifier is driven through an
arbitrary sequence of classification events and `CheckOverridable` is
instantiated with the recording callback, exposing exactly which
(name, metadata) pairs are installed. -/

/-- Sequence of classification events (package, variable, metadata) driven
through `DependencyTracker::Sort` with the recording callbacks. -/
def runSortEvents : List (String × String × Metadata) → DependencyTracker →
    List (String × Metadata) → Except String (DependencyTracker × List (String × Metadata))
  | [], tr, st => .ok (tr, st)
  | (package, var, metadata) :: rest, tr, st => do
    let r ← DependencyTracker.SortVar recordPrivate recordProvides tr st package var metadata
    runSortEvents rest r.1 r.2

/-- Overridable-kind metadata observed for a given name, in event order. -/
def ovEvents (var : String) : List (String × String × Metadata) → List Metadata
  | [] => []
  | (_, v, m) :: rest =>
    if v = var ∧ m.dependency = Dependency.Overridable then m :: ovEvents var rest
    else ovEvents var rest

/-- First metadata observed for each distinct sparse id not yet in `seen`,
in observation order. -/
def firstPerId : List Metadata → List Int → List Metadata
  | [], _ => []
  | m :: rest, seen =>
    if m.sparseId ∈ seen then firstPerId rest seen
    else m :: firstPerId rest (seen ++ [m.sparseId])

/-- Ids seen after observing a metadata list, starting from `seen`. -/
def idsAfter : List Metadata → List Int → List Int
  | [], seen => seen
  | m :: rest, seen =>
    if m.sparseId ∈ seen then idsAfter rest seen
    else idsAfter rest (seen ++ [m.sparseId])

/-- Encoding of a map entry that exists exactly when the encoded list is
nonempty. -/
def optList (l : List Metadata) : Option (List Metadata) :=
  if l = [] then none else some l

/-- Encoding of a counter entry that exists exactly when the count is
positive. -/
def optNat (n : Nat) : Option Nat :=
  if n = 0 then none else some n

/-- Keys of an association list. -/
def keysOf {α : Type} (l : List (String × α)) : List String := l.map Prod.fst

/-- Warnings emitted by `CheckOverridable` over the counter list. -/
def ovWarns (provided : List String) : List (String × Nat) → List String
  | [] => []
  | (var, count) :: rest =>
    if var ∈ provided then ovWarns provided rest
    else (if count > 1 then [overridableWarning var] else []) ++ ovWarns provided rest

/-- Installs forwarded by `CheckOverridable` over the counter list. -/
def ovCalls (provided : List String) (meta : List (String × List Metadata)) :
    List (String × Nat) → List (String × Metadata)
  | [] => []
  | (var, _count) :: rest =>
    if var ∈ provided then ovCalls provided meta rest
    else ((lookupA var meta).getD []).map (fun m => (var, m)) ++ ovCalls provided meta rest

theorem lookupA_append_single_ne {α : Type} {k n : String} (v : α) (l : List (String × α))
    (h : n ≠ k) : lookupA k (l ++ [(n, v)]) = lookupA k l := by
  cases hl : lookupA k l with
  | none => rw [lookupA_append_of_none _ hl]; simp [h]
  | some w => exact lookupA_append_of_some _ hl

theorem lookupA_append_single_self {α : Type} {k : String} (v : α) (l : List (String × α))
    (h : lookupA k l = none) : lookupA k (l ++ [(k, v)]) = some v := by
  rw [lookupA_append_of_none _ h]; simp

theorem lookupA_eq_none_iff {α : Type} (k : String) (l : List (String × α)) :
    lookupA k l = none ↔ k ∉ keysOf l := by
  induction l with
  | nil => simp [keysOf]
  | cons q rest ih =>
    obtain ⟨k', v⟩ := q
    by_cases hk : k' = k
    · subst hk
      simp [keysOf]
    · have hk' : ¬k = k' := fun h => hk h.symm
      simp only [lookupA_cons, hk, if_false, keysOf, List.map_cons, List.mem_cons,
        not_or] at ih ⊢
      simp [hk', ih]

theorem lookupA_some_mem {α : Type} {k : String} {l : List (String × α)} {v : α}
    (h : lookupA k l = some v) : (k, v) ∈ l := by
  induction l with
  | nil => simp at h
  | cons q rest ih =>
    obtain ⟨k', v'⟩ := q
    by_cases hk : k' = k
    · subst hk
      simp at h
      simp [h]
    · simp only [lookupA_cons, hk, if_false] at h
      exact List.mem_cons_of_mem _ (ih h)

theorem keysOf_updateA {α : Type} (k : String) (v : α) (l : List (String × α)) :
    keysOf (updateA k v l) = keysOf l := by
  induction l with
  | nil => rfl
  | cons q rest ih =>
    obtain ⟨k', v'⟩ := q
    by_cases hk : k' = k
    · simp [updateA, keysOf, hk]
    · simp only [updateA_cons, hk, if_false, keysOf, List.map_cons]
      exact congrArg _ ih

theorem sparseAddedSet_ne (sa : List (String × List Int)) (v var : String) (id : Int)
    (h : v ≠ var) : lookupA var (sparseAddedSet sa v id) = lookupA var sa := by
  unfold sparseAddedSet
  cases hl : lookupA v sa with
  | none => exact lookupA_append_single_ne _ _ h
  | some ids => exact lookupA_updateA_ne _ _ h

theorem sparseAddedSet_self (sa : List (String × List Int)) (v : String) (id : Int) :
    (lookupA v (sparseAddedSet sa v id)).getD []
      = (if id ∈ (lookupA v sa).getD [] then (lookupA v sa).getD []
         else (lookupA v sa).getD [] ++ [id]) := by
  cases hl : lookupA v sa with
  | none =>
    simp only [sparseAddedSet, hl]
    simp [lookupA_append_single_self _ _ hl]
  | some ids =>
    have hs : (lookupA v sa).isSome = true := by rw [hl]; rfl
    simp only [sparseAddedSet, hl]
    rw [lookupA_updateA_self _ hs]
    simp

theorem bumpCount_ne (l : List (String × Nat)) (v var : String) (h : v ≠ var) :
    lookupA var (bumpCount l v) = lookupA var l := by
  unfold bumpCount
  cases hl : lookupA v l with
  | none => exact lookupA_append_single_ne _ _ h
  | some n => exact lookupA_updateA_ne _ _ h

theorem bumpCount_self (l : List (String × Nat)) (v : String) :
    lookupA v (bumpCount l v) = some ((lookupA v l).getD 0 + 1) := by
  cases hl : lookupA v l with
  | none =>
    simp only [bumpCount, hl]
    simp [lookupA_append_single_self _ _ hl]
  | some n =>
    have hs : (lookupA v l).isSome = true := by rw [hl]; rfl
    simp only [bumpCount, hl]
    rw [lookupA_updateA_self _ hs]
    simp

theorem bumpCount_keys_nodup (l : List (String × Nat)) (v : String)
    (h : (keysOf l).Nodup) : (keysOf (bumpCount l v)).Nodup := by
  unfold bumpCount
  cases hl : lookupA v l with
  | none =>
    have hv : v ∉ keysOf l := (lookupA_eq_none_iff v l).mp hl
    simpa [keysOf, List.nodup_append] using And.intro h hv
  | some n => rwa [keysOf_updateA]

/-- Overridable occurrence contributed by a single event for a given
name. -/
def ovEvent1 (var v : String) (m : Metadata) : List Metadata :=
  if v = var ∧ m.dependency = Dependency.Overridable then [m] else []

theorem ovEvents_cons (var p v : String) (m : Metadata)
    (rest : List (String × String × Metadata)) :
    ovEvents var ((p, v, m) :: rest) = ovEvent1 var v m ++ ovEvents var rest := by
  by_cases h : v = var ∧ m.dependency = Dependency.Overridable <;>
    simp [ovEvents, ovEvent1, h]

theorem idsAfter_append (a b : List Metadata) (seen : List Int) :
    idsAfter (a ++ b) seen = idsAfter b (idsAfter a seen) := by
  induction a generalizing seen with
  | nil => simp [idsAfter]
  | cons m rest ih =>
    by_cases h : m.sparseId ∈ seen <;> simp [idsAfter, h, ih]

theorem firstPerId_append (a b : List Metadata) (seen : List Int) :
    firstPerId (a ++ b) seen = firstPerId a seen ++ firstPerId b (idsAfter a seen) := by
  induction a generalizing seen with
  | nil => simp [firstPerId, idsAfter]
  | cons m rest ih =>
    by_cases h : m.sparseId ∈ seen <;> simp [firstPerId, idsAfter, h, ih]

theorem optList_eq_none_iff (l : List Metadata) : optList l = none ↔ l = [] := by
  by_cases h : l = [] <;> simp [optList, h]

theorem optList_of_ne_nil {l : List Metadata} (h : l ≠ []) : optList l = some l := by
  simp [optList, h]

theorem optNat_of_ne_zero {n : Nat} (h : n ≠ 0) : optNat n = some n := by
  simp [optNat, h]

/-- Frame lemma: a classification event that is not an overridable
occurrence for `var` — either it concerns another name or it has a
different dependency kind — leaves the classifier's overridable accumulators
for `var` untouched and preserves key uniqueness of the counters. -/
theorem sortVar_ov_frame (var package v : String) (m : Metadata)
    (tr tr' : DependencyTracker) (st st' : List (String × Metadata))
    (hv : v ≠ var ∨ m.dependency ≠ Dependency.Overridable)
    (hrun : DependencyTracker.SortVar recordPrivate recordProvides tr st package v m
      = .ok (tr', st')) :
    lookupA var tr'.overridable_meta = lookupA var tr.overridable_meta
    ∧ lookupA var tr'.sparse_added = lookupA var tr.sparse_added
    ∧ lookupA var tr'.overridable_vars = lookupA var tr.overridable_vars
    ∧ ((keysOf tr.overridable_vars).Nodup → (keysOf tr'.overridable_vars).Nodup) := by
  cases hd : m.dependency with
  | Private =>
    simp only [DependencyTracker.SortVar, Metadata.Dep, hd, recordPrivate,
      except_bind_ok, Except.ok.injEq, Prod.mk.injEq] at hrun
    obtain ⟨h1, -⟩ := hrun
    subst h1
    exact ⟨rfl, rfl, rfl, fun h => h⟩
  | Requires =>
    simp only [DependencyTracker.SortVar, Metadata.Dep, hd, Except.ok.injEq,
      Prod.mk.injEq] at hrun
    obtain ⟨h1, -⟩ := hrun
    subst h1
    exact ⟨rfl, rfl, rfl, fun h => h⟩
  | None =>
    simp [DependencyTracker.SortVar, Metadata.Dep, hd] at hrun
  | Provides =>
    by_cases hp : v ∈ tr.provided_vars
    · simp [DependencyTracker.SortVar, Metadata.Dep, hd, hp] at hrun
    · simp only [DependencyTracker.SortVar, Metadata.Dep, hd] at hrun
      rw [if_neg hp] at hrun
      simp only [recordProvides, except_bind_ok, Except.ok.injEq, Prod.mk.injEq] at hrun
      obtain ⟨h1, -⟩ := hrun
      subst h1
      exact ⟨rfl, rfl, rfl, fun h => h⟩
  | Overridable =>
    have hvne : v ≠ var := by
      rcases hv with h | h
      · exact h
      · exact absurd hd h
    simp only [DependencyTracker.SortVar, Metadata.Dep, Metadata.IsSparse,
      Metadata.GetSparseId, hd] at hrun
    by_cases hN : (lookupA v tr.overridable_meta).isNone
    · by_cases hsT : m.sparse = true
      · simp only [hN, hsT, if_true] at hrun
        by_cases hget : sparseAddedGet (sparseAddedSet tr.sparse_added v m.sparseId) v
            m.sparseId = true
        · simp only [hget, if_true, Except.ok.injEq, Prod.mk.injEq] at hrun
          obtain ⟨h1, -⟩ := hrun
          subst h1
          refine ⟨lookupA_append_single_ne _ _ hvne, sparseAddedSet_ne _ _ _ _ hvne,
            bumpCount_ne _ _ _ hvne, fun h => bumpCount_keys_nodup _ _ h⟩
        · simp only [hget, Bool.not_eq_true, Bool.false_eq_true, if_false, Except.ok.injEq,
            Prod.mk.injEq] at hrun
          obtain ⟨h1, -⟩ := hrun
          subst h1
          refine ⟨?_, ?_, bumpCount_ne _ _ _ hvne, fun h => bumpCount_keys_nodup _ _ h⟩
          · rw [lookupA_updateA_ne _ _ hvne, lookupA_append_single_ne _ _ hvne]
          · rw [sparseAddedSet_ne _ _ _ _ hvne, sparseAddedSet_ne _ _ _ _ hvne]
      · have hsF : m.sparse = false := by
          cases hx : m.sparse
          · rfl
          · exact absurd hx hsT
        simp only [hN, hsF, Bool.false_eq_true, if_true, if_false, Except.ok.injEq,
          Prod.mk.injEq] at hrun
        obtain ⟨h1, -⟩ := hrun
        subst h1
        exact ⟨lookupA_append_single_ne _ _ hvne, rfl, bumpCount_ne _ _ _ hvne,
          fun h => bumpCount_keys_nodup _ _ h⟩
    · by_cases hsT : m.sparse = true
      · simp only [hN, hsT, if_true, if_false, Bool.false_eq_true] at hrun
        by_cases hget : sparseAddedGet tr.sparse_added v m.sparseId = true
        · simp only [hget, if_true, Except.ok.injEq, Prod.mk.injEq] at hrun
          obtain ⟨h1, -⟩ := hrun
          subst h1
          exact ⟨rfl, rfl, bumpCount_ne _ _ _ hvne, fun h => bumpCount_keys_nodup _ _ h⟩
        · simp only [hget, Bool.not_eq_true, Bool.false_eq_true, if_false, Except.ok.injEq,
            Prod.mk.injEq] at hrun
          obtain ⟨h1, -⟩ := hrun
          subst h1
          refine ⟨lookupA_updateA_ne _ _ hvne, sparseAddedSet_ne _ _ _ _ hvne,
            bumpCount_ne _ _ _ hvne, fun h => bumpCount_keys_nodup _ _ h⟩
      · have hsF : m.sparse = false := by
          cases hx : m.sparse
          · rfl
          · exact absurd hx hsT
        simp only [hN, hsF, Bool.false_eq_true, if_false, Except.ok.injEq,
          Prod.mk.injEq] at hrun
        obtain ⟨h1, -⟩ := hrun
        subst h1
        exact ⟨rfl, rfl, bumpCount_ne _ _ _ hvne, fun h => bumpCount_keys_nodup _ _ h⟩

/-- Step lemma: one classification event updates the classifier's
overridable accumulators for a name exactly as the first-per-id
specification predicts. -/
theorem sortVar_ov_step (var package v : String) (m : Metadata)
    (tr tr' : DependencyTracker) (st st' : List (String × Metadata))
    (cands : List Metadata) (seen : List Int) (cnt : Nat)
    (hsp : v = var → m.dependency = Dependency.Overridable → m.sparse = true)
    (hmeta : lookupA var tr.overridable_meta = optList cands)
    (hseen : (lookupA var tr.sparse_added).getD [] = seen)
    (hcnt : lookupA var tr.overridable_vars = optNat cnt)
    (hemp : cands = [] → seen = [])
    (hcc : cands = [] ↔ cnt = 0)
    (hnd : (keysOf tr.overridable_vars).Nodup)
    (hrun : DependencyTracker.SortVar recordPrivate recordProvides tr st package v m
      = .ok (tr', st')) :
    lookupA var tr'.overridable_meta
        = optList (cands ++ firstPerId (ovEvent1 var v m) seen)
    ∧ (lookupA var tr'.sparse_added).getD [] = idsAfter (ovEvent1 var v m) seen
    ∧ lookupA var tr'.overridable_vars = optNat (cnt + (ovEvent1 var v m).length)
    ∧ (cands ++ firstPerId (ovEvent1 var v m) seen = [] →
        idsAfter (ovEvent1 var v m) seen = [])
    ∧ (cands ++ firstPerId (ovEvent1 var v m) seen = [] ↔
        cnt + (ovEvent1 var v m).length = 0)
    ∧ (keysOf tr'.overridable_vars).Nodup := by
  by_cases hvd : v = var ∧ m.dependency = Dependency.Overridable
  case neg =>
    have he1 : ovEvent1 var v m = [] := by simp [ovEvent1, hvd]
    have hfr := sortVar_ov_frame var package v m tr tr' st st' (not_and_or.mp hvd) hrun
    rw [he1]
    simp only [firstPerId, idsAfter, List.append_nil, List.length_nil, Nat.add_zero]
    exact ⟨hfr.1.trans hmeta, by rw [hfr.2.1]; exact hseen, hfr.2.2.1.trans hcnt,
      hemp, hcc, hfr.2.2.2 hnd⟩
  case pos =>
    obtain ⟨hv, hd⟩ := hvd
    subst hv
    have hspT : m.sparse = true := hsp rfl hd
    have he1 : ovEvent1 v v m = [m] := by simp [ovEvent1, hd]
    rw [he1]
    simp only [DependencyTracker.SortVar, Metadata.Dep, Metadata.IsSparse,
      Metadata.GetSparseId, hd, hspT, if_true] at hrun
    by_cases hN : (lookupA v tr.overridable_meta).isNone
    · have hlnone : lookupA v tr.overridable_meta = none := Option.isNone_iff_eq_none.mp hN
      have hc0 : cands = [] := by
        rw [hmeta] at hlnone
        exact (optList_eq_none_iff cands).mp hlnone
      have hs0 : seen = [] := hemp hc0
      have hn0 : cnt = 0 := hcc.mp hc0
      have hget : sparseAddedGet (sparseAddedSet tr.sparse_added v m.sparseId) v
          m.sparseId = true := by
        by_cases hidc : m.sparseId ∈ (lookupA v tr.sparse_added).getD [] <;>
          simp [sparseAddedGet, sparseAddedSet_self, hidc]
      simp only [hN, if_true, hget, Except.ok.injEq, Prod.mk.injEq] at hrun
      obtain ⟨h1, -⟩ := hrun
      subst h1
      have hl2 : lookupA v tr.overridable_meta = none := by
        rw [hmeta, hc0]
        simp [optList]
      refine ⟨?_, ?_, ?_, ?_, ?_, bumpCount_keys_nodup _ _ hnd⟩
      · rw [lookupA_append_single_self _ _ hl2, hc0, hs0]
        simp [firstPerId, optList]
      · rw [sparseAddedSet_self, hseen, hs0]
        simp [idsAfter]
      · rw [bumpCount_self, hcnt, hn0]
        simp [optNat]
      · rw [hc0, hs0]
        simp [firstPerId]
      · rw [hc0, hn0]
        simp [firstPerId, hs0]
    · have hN' : (lookupA v tr.overridable_meta).isNone = false := by
        rwa [Bool.not_eq_true] at hN
      have hcne : cands ≠ [] := by
        intro h
        rw [hmeta, h] at hN'
        simp [optList] at hN'
      have hcntne : cnt ≠ 0 := fun h => hcne (hcc.mpr h)
      have hsome : lookupA v tr.overridable_meta = some cands :=
        hmeta.trans (optList_of_ne_nil hcne)
      simp only [hN', Bool.false_eq_true, if_false] at hrun
      by_cases hid : m.sparseId ∈ seen
      · have hget : sparseAddedGet tr.sparse_added v m.sparseId = true := by
          simp [sparseAddedGet, hseen, hid]
        simp only [hget, if_true, Except.ok.injEq, Prod.mk.injEq] at hrun
        obtain ⟨h1, -⟩ := hrun
        subst h1
        refine ⟨?_, ?_, ?_, ?_, ?_, bumpCount_keys_nodup _ _ hnd⟩
        · simp only [firstPerId, hid, if_true, List.append_nil]
          exact hmeta
        · simp only [idsAfter, hid, if_true]
          exact hseen
        · rw [bumpCount_self, hcnt, optNat_of_ne_zero hcntne]
          simp [optNat]
        · intro h
          simp only [firstPerId, hid, if_true, List.append_nil] at h
          exact absurd h hcne
        · simp [firstPerId, hid, hcne]
      · have hget : sparseAddedGet tr.sparse_added v m.sparseId = false := by
          simp [sparseAddedGet, hseen, hid]
        simp only [hget, Bool.false_eq_true, if_false, Except.ok.injEq,
          Prod.mk.injEq] at hrun
        obtain ⟨h1, -⟩ := hrun
        subst h1
        refine ⟨?_, ?_, ?_, ?_, ?_, bumpCount_keys_nodup _ _ hnd⟩
        · rw [hsome]
          have hss : (lookupA v tr.overridable_meta).isSome = true := by
            rw [hsome]
            rfl
          rw [lookupA_updateA_self _ hss]
          simp only [Option.getD_some, firstPerId, hid, if_false]
          rw [optList_of_ne_nil (by simp)]
        · rw [sparseAddedSet_self, hseen]
          simp [idsAfter, hid]
        · rw [bumpCount_self, hcnt, optNat_of_ne_zero hcntne]
          simp [optNat]
        · intro h
          simp only [firstPerId, hid, if_false] at h
          exact absurd (List.append_eq_nil.mp h).1 hcne
        · simp [firstPerId, hid, hcne]

/-- Invariant of a whole classification run: for any name whose overridable
occurrences are all sparse, the candidate list is exactly the first metadata
observed per distinct sparse id, the dedup flags are exactly the observed
ids, and the counter is the total number of occurrences. -/
theorem runSortEvents_ov_inv (var : String) :
    ∀ (events : List (String × String × Metadata)) (tr tr' : DependencyTracker)
      (st st' : List (String × Metadata)) (cands : List Metadata) (seen : List Int)
      (cnt : Nat),
    (∀ m ∈ ovEvents var events, m.sparse = true) →
    lookupA var tr.overridable_meta = optList cands →
    (lookupA var tr.sparse_added).getD [] = seen →
    lookupA var tr.overridable_vars = optNat cnt →
    (cands = [] → seen = []) →
    (cands = [] ↔ cnt = 0) →
    (keysOf tr.overridable_vars).Nodup →
    runSortEvents events tr st = .ok (tr', st') →
    lookupA var tr'.overridable_meta
        = optList (cands ++ firstPerId (ovEvents var events) seen)
    ∧ (lookupA var tr'.sparse_added).getD [] = idsAfter (ovEvents var events) seen
    ∧ lookupA var tr'.overridable_vars = optNat (cnt + (ovEvents var events).length)
    ∧ (keysOf tr'.overridable_vars).Nodup := by
  intro events
  induction events with
  | nil =>
    intro tr tr' st st' cands seen cnt _ hmeta hseen hcnt _ _ hnd hrun
    simp only [runSortEvents, Except.ok.injEq, Prod.mk.injEq] at hrun
    obtain ⟨h1, -⟩ := hrun
    subst h1
    simp only [ovEvents, firstPerId, idsAfter, List.append_nil, List.length_nil,
      Nat.add_zero]
    exact ⟨hmeta, hseen, hcnt, hnd⟩
  | cons e rest ih =>
    obtain ⟨p, v, m⟩ := e
    intro tr tr' st st' cands seen cnt hall hmeta hseen hcnt hemp hcc hnd hrun
    simp only [runSortEvents] at hrun
    cases hstep : DependencyTracker.SortVar recordPrivate recordProvides tr st p v m with
    | error err =>
      rw [hstep] at hrun
      exact Except.noConfusion hrun
    | ok r =>
      rw [hstep] at hrun
      obtain ⟨tr1, st1⟩ := r
      have hsp : v = var → m.dependency = Dependency.Overridable → m.sparse = true := by
        intro h1 h2
        exact hall m (by rw [ovEvents_cons]; simp [ovEvent1, h1, h2])
      obtain ⟨P1, P2, P3, P4, P5, P6⟩ := sortVar_ov_step var p v m tr tr1 st st1
        cands seen cnt hsp hmeta hseen hcnt hemp hcc hnd hstep
      have hall' : ∀ mm ∈ ovEvents var rest, mm.sparse = true := by
        intro mm hmm
        exact hall mm (by rw [ovEvents_cons]; exact List.mem_append_right _ hmm)
      have hres := ih tr1 tr' st1 st' (cands ++ firstPerId (ovEvent1 var v m) seen)
        (idsAfter (ovEvent1 var v m) seen) (cnt + (ovEvent1 var v m).length)
        hall' P1 P2 P3 P4 P5 P6 hrun
      rw [ovEvents_cons, firstPerId_append, idsAfter_append, List.length_append]
      refine ⟨?_, hres.2.1, ?_, hres.2.2.2⟩
      · rw [← List.append_assoc]
        exact hres.1
      · rw [← Nat.add_assoc]
        exact hres.2.2.1

theorem addAllMeta_record (var : String) :
    ∀ (l : List Metadata) (st : List (String × Metadata)),
    addAllMeta recordOverridable var l st = .ok (st ++ l.map (fun m => (var, m))) := by
  intro l
  induction l with
  | nil => intro st; simp [addAllMeta]
  | cons m rest ih => intro st; simp [addAllMeta, recordOverridable, ih]

theorem checkOverridableAux_record (provided : List String)
    (meta : List (String × List Metadata)) :
    ∀ (ovars : List (String × Nat)) (warns : List String)
      (st : List (String × Metadata)),
    checkOverridableAux recordOverridable provided meta ovars warns st
      = .ok (warns ++ ovWarns provided ovars, st ++ ovCalls provided meta ovars) := by
  intro ovars
  induction ovars with
  | nil => intro warns st; simp [checkOverridableAux, ovWarns, ovCalls]
  | cons q rest ih =>
    obtain ⟨var, count⟩ := q
    intro warns st
    by_cases hp : var ∈ provided
    · simp [checkOverridableAux, ovWarns, ovCalls, hp, ih]
    · by_cases hc : count > 1 <;>
        simp [checkOverridableAux, ovWarns, ovCalls, hp, hc, addAllMeta_record, ih]

theorem filter_map_key_ne (u var : String) (l : List Metadata) (h : u ≠ var) :
    (l.map (fun m => (u, m))).filter (fun q => decide (Prod.fst q = var)) = [] := by
  induction l with
  | nil => rfl
  | cons m rest ih => simp [h, ih]

theorem filter_map_key_eq (var : String) (l : List Metadata) :
    (l.map (fun m => (var, m))).filter (fun q => decide (Prod.fst q = var))
      = l.map (fun m => (var, m)) := by
  induction l with
  | nil => rfl
  | cons m rest ih => simp [ih]

theorem ovCalls_filter_of_provided (provided : List String)
    (meta : List (String × List Metadata)) (var : String) (hp : var ∈ provided) :
    ∀ ovars : List (String × Nat),
    (ovCalls provided meta ovars).filter (fun q => decide (Prod.fst q = var)) = [] := by
  intro ovars
  induction ovars with
  | nil => rfl
  | cons q rest ih =>
    obtain ⟨u, c⟩ := q
    by_cases hu : u ∈ provided
    · simpa [ovCalls, hu] using ih
    · have hne : u ≠ var := fun h => hu (h ▸ hp)
      simp [ovCalls, hu, List.filter_append, filter_map_key_ne _ _ _ hne, ih]

theorem ovCalls_filter_of_unprovided (provided : List String)
    (meta : List (String × List Metadata)) (var : String) (hp : var ∉ provided) :
    ∀ ovars : List (String × Nat), (keysOf ovars).Nodup →
    (ovCalls provided meta ovars).filter (fun q => decide (Prod.fst q = var))
      = (if lookupA var ovars = none then []
         else ((lookupA var meta).getD []).map (fun m => (var, m))) := by
  intro ovars
  induction ovars with
  | nil => intro _; simp [ovCalls]
  | cons q rest ih =>
    obtain ⟨u, c⟩ := q
    intro hnd
    have hnd2 : u ∉ keysOf rest ∧ (keysOf rest).Nodup := by
      simpa [keysOf] using hnd
    by_cases hu : u = var
    · subst hu
      have hlr : lookupA u rest = none := (lookupA_eq_none_iff u rest).mpr hnd2.1
      simp only [ovCalls, hp, if_false, List.filter_append, filter_map_key_eq,
        ih hnd2.2, hlr, if_true, List.append_nil, lookupA_cons, if_pos rfl]
      simp
    · have hul : lookupA var ((u, c) :: rest) = lookupA var rest := by
        simp [lookupA_cons, hu]
      by_cases hup : u ∈ provided
      · simp only [ovCalls, hup, if_true, hul]
        exact ih hnd2.2
      · simp only [ovCalls, hup, if_false, List.filter_append,
          filter_map_key_ne _ _ _ hu, List.nil_append, hul]
        exact ih hnd2.2

theorem mem_ovWarns (provided : List String) (var : String) (c : Nat)
    (hp : var ∉ provided) (hc : 1 < c) :
    ∀ ovars : List (String × Nat), (var, c) ∈ ovars →
    overridableWarning var ∈ ovWarns provided ovars := by
  intro ovars
  induction ovars with
  | nil => intro h; simp at h
  | cons q rest ih =>
    obtain ⟨u, k⟩ := q
    intro h
    rcases List.mem_cons.mp h with h | h
    · obtain ⟨h1, h2⟩ := Prod.mk.injEq .. ▸ h
      subst h1
      subst h2
      simp [ovWarns, hp, hc]
    · by_cases hu : u ∈ provided
      · simpa [ovWarns, hu] using ih h
      · simp only [ovWarns, hu, if_false]
        exact List.mem_append_right _ (ih h)

theorem firstPerId_ne_nil {l : List Metadata} (h : l ≠ []) : firstPerId l [] ≠ [] := by
  cases l with
  | nil => exact absurd rfl h
  | cons m rest => simp [firstPerId]

theorem firstPerId_ids_nodup (l : List Metadata) :
    ∀ seen : List Int, ((firstPerId l seen).map Metadata.GetSparseId).Nodup
      ∧ ∀ i ∈ (firstPerId l seen).map Metadata.GetSparseId, i ∉ seen := by
  induction l with
  | nil =>
    intro seen
    simp [firstPerId]
  | cons m rest ih =>
    intro seen
    by_cases h : m.sparseId ∈ seen
    · simpa [firstPerId, h] using ih seen
    · obtain ⟨ihn, ihs⟩ := ih (seen ++ [m.sparseId])
      have hm : ∀ i ∈ (firstPerId rest (seen ++ [m.sparseId])).map Metadata.GetSparseId,
          i ∉ seen ∧ i ≠ m.sparseId := by
        intro i hi
        have := ihs i hi
        simp only [List.mem_append, List.mem_singleton, not_or] at this
        exact this
      constructor
      · simp only [firstPerId, h, if_false, List.map_cons, List.nodup_cons]
        refine ⟨?_, ihn⟩
        intro hmem
        exact absurd rfl (hm _ hmem).2.symm
      · intro i hi
        simp only [firstPerId, h, if_false, List.map_cons, List.mem_cons] at hi
        rcases hi with hi | hi
        · subst hi
          exact h
        · exact (hm i hi).1

/-- Claim C5: after a classification run (all overridable occurrences of
the inspected name being sparse), overridable resolution installs nothing
and raises no error for a provided name; for an unprovided name it forwards,
under the bare name, exactly the entries of the ordered candidate list —
one metadata per distinct sparse id, namely the first observed during
classification for that id — and a registration count above one merely adds
a warning to the diagnostic list while resolution still succeeds. -/
theorem claim_C5_overridable_resolution (events : List (String × String × Metadata))
    (var : String) (tr : DependencyTracker) (stRec : List (String × Metadata))
    (hall : ∀ m ∈ ovEvents var events, m.sparse = true)
    (hrun : runSortEvents events DependencyTracker.mkEmpty [] = .ok (tr, stRec)) :
    tr.CheckOverridable recordOverridable []
        = .ok (ovWarns tr.provided_vars tr.overridable_vars,
            ovCalls tr.provided_vars tr.overridable_meta tr.overridable_vars)
    ∧ (var ∈ tr.provided_vars →
        (ovCalls tr.provided_vars tr.overridable_meta tr.overridable_vars).filter
            (fun q => decide (Prod.fst q = var)) = [])
    ∧ (var ∉ tr.provided_vars →
        (ovCalls tr.provided_vars tr.overridable_meta tr.overridable_vars).filter
            (fun q => decide (Prod.fst q = var))
          = (firstPerId (ovEvents var events) []).map (fun m => (var, m)))
    ∧ ((firstPerId (ovEvents var events) []).map Metadata.GetSparseId).Nodup
    ∧ (var ∉ tr.provided_vars → 1 < (ovEvents var events).length →
        overridableWarning var ∈ ovWarns tr.provided_vars tr.overridable_vars) := by
  obtain ⟨Hmeta, Hseen, Hcnt, Hnd⟩ := runSortEvents_ov_inv var events
    DependencyTracker.mkEmpty tr [] stRec [] [] 0 hall (by simp [DependencyTracker.mkEmpty, optList])
    (by simp [DependencyTracker.mkEmpty]) (by simp [DependencyTracker.mkEmpty, optNat])
    (fun _ => rfl) (by simp) (by simp [DependencyTracker.mkEmpty, keysOf]) hrun
  simp only [List.nil_append, Nat.zero_add] at Hmeta Hcnt
  refine ⟨?_, ?_, ?_, (firstPerId_ids_nodup (ovEvents var events) []).1, ?_⟩
  · simp [DependencyTracker.CheckOverridable, checkOverridableAux_record]
  · intro hp
    exact ovCalls_filter_of_provided tr.provided_vars tr.overridable_meta var hp
      tr.overridable_vars
  · intro hp
    rw [ovCalls_filter_of_unprovided tr.provided_vars tr.overridable_meta var hp
      tr.overridable_vars Hnd]
    by_cases hocc : ovEvents var events = []
    · rw [Hcnt, hocc]
      simp [optNat, firstPerId]
    · have hlen : (ovEvents var events).length ≠ 0 := by
        simpa using fun h => hocc (List.length_eq_zero.mp h)
      rw [Hcnt, optNat_of_ne_zero hlen]
      simp only [if_false, reduceCtorEq]
      rw [Hmeta, optList_of_ne_nil (firstPerId_ne_nil hocc)]
      simp
  · intro hp hlen
    have hne : (ovEvents var events).length ≠ 0 := by omega
    have hsome : lookupA var tr.overridable_vars = some (ovEvents var events).length := by
      rw [Hcnt, optNat_of_ne_zero hne]
    exact mem_ovWarns tr.provided_vars var (ovEvents var events).length hp hlen
      tr.overridable_vars (lookupA_some_mem hsome)

/-- Concrete classification events used by the C5 witness: `w` registered
overridable (sparse id 5) by two packages, `z` provided once. -/
def evC5 : List (String × String × Metadata) :=
  [("A", "w", sparseMeta Dependency.Overridable 5),
   ("B", "w", sparseMeta Dependency.Overridable 5),
   ("B", "z", plainMeta Dependency.Provides)]

/-- Classifier state after running `evC5` from the empty tracker. -/
def trC5 : DependencyTracker :=
  ⟨["z"], [], [("w", 2)], [("w", [5])], [("w", [sparseMeta Dependency.Overridable 5])]⟩

/-- Witness for C5 on the concrete event list `evC5` and the name `w`. -/
theorem claim_C5_overridable_resolution_witness :
    trC5.CheckOverridable recordOverridable []
        = .ok (ovWarns trC5.provided_vars trC5.overridable_vars,
            ovCalls trC5.provided_vars trC5.overridable_meta trC5.overridable_vars)
    ∧ ("w" ∈ trC5.provided_vars →
        (ovCalls trC5.provided_vars trC5.overridable_meta trC5.overridable_vars).filter
            (fun q => decide (Prod.fst q = "w")) = [])
    ∧ ("w" ∉ trC5.provided_vars →
        (ovCalls trC5.provided_vars trC5.overridable_meta trC5.overridable_vars).filter
            (fun q => decide (Prod.fst q = "w"))
          = (firstPerId (ovEvents "w" evC5) []).map (fun m => ("w", m)))
    ∧ ((firstPerId (ovEvents "w" evC5) []).map Metadata.GetSparseId).Nodup
    ∧ ("w" ∉ trC5.provided_vars → 1 < (ovEvents "w" evC5).length →
        overridableWarning "w" ∈ ovWarns trC5.provided_vars trC5.overridable_vars) :=
  claim_C5_overridable_resolution evC5 "w" trC5
    [("z", plainMeta Dependency.Provides)] (by decide) rfl

end Parthenon
